import Mathlib

/-!
Verification of the tour-guide content core: data model (`models/poi.py`,
`models/content.py`, `models/judgment.py`), bounded queues
(`queue/manager.py`), worker (`parallel/worker.py`), fan-out executor
(`parallel/executor.py`), selection stage (`agents/judge.py`) and pipeline
orchestrator (`parallel/pipeline.py`), shallowly embedded in Lean.
External collaborators (the content-generation service, the Claude judging
call) are modelled as explicit environment parameters; every branch of the
embedded functions follows the corresponding Python branch.
-/

deriving instance DecidableEq for Except

namespace TourGuide

/-- Exceptions raised by the embedded code (`AgentError`, `ValueError`,
`queue.Full`, `queue.Empty`). -/
inductive PyError where
  | agentError (msg : String)
  | valueError (msg : String)
  | queueFull
  | queueEmpty
deriving DecidableEq, Repr

/-- `POICategory` enum from `models/poi.py`. -/
inductive POICategory where
  | historical
  | cultural
  | natural
  | religious
  | entertainment
deriving DecidableEq, Repr

/-- `POI` dataclass from `models/poi.py`.  Coordinates and distance are
modelled as rationals; no claim computes with them. -/
structure POI where
  name : String
  lat : ℚ
  lon : ℚ
  description : String
  category : POICategory
  distance_from_start_km : ℚ
deriving DecidableEq, Repr

/-- `ContentResult` dataclass from `models/content.py`.  `metadata` is an
association list standing for the Python dict; the derived `url` field is
omitted (no claim mentions it). -/
structure ContentResult where
  content_type : String
  title : String
  description : String
  relevance_score : Int
  metadata : List (String × String)
  agent_name : String
  poi_name : String
deriving DecidableEq, Repr

/-- The `valid_types` list checked by `ContentResult.__post_init__` and
`JudgmentResult.__post_init__`. -/
def valid_types : List String := ["youtube", "spotify", "history"]

/-- The part of `ContentResult.__post_init__` validation that the judgment
constructor depends on: every Python `ContentResult` instance has a content
type drawn from `valid_types`. -/
def ContentResult.typeOk (r : ContentResult) : Prop :=
  r.content_type ∈ valid_types

instance (r : ContentResult) : Decidable r.typeOk := by
  unfold ContentResult.typeOk; infer_instance

/-- `JudgmentResult` dataclass from `models/judgment.py`. -/
structure JudgmentResult where
  poi_name : String
  selected_content : ContentResult
  selected_type : String
  reasoning : String
  scores : List (String × Int)
  all_content : List ContentResult
deriving DecidableEq, Repr

/-- Constructing a `JudgmentResult` in Python runs `__post_init__`
(`models/judgment.py` lines 29-43), which raises `ValueError` when
`selected_type` is not one of `valid_types` or does not match
`selected_content.content_type`.  Every construction site in the embedded
code goes through this checking constructor. -/
def mkJudgmentResult (poi_name : String) (selected_content : ContentResult)
    (selected_type : String) (reasoning : String) (scores : List (String × Int))
    (all_content : List ContentResult) : Except PyError JudgmentResult :=
  if selected_type ∉ valid_types then
    .error (.valueError ("Invalid selected_type: " ++ selected_type))
  else if selected_content.content_type ≠ selected_type then
    .error (.valueError "Mismatch between selected_type and selected_content.content_type")
  else
    .ok ⟨poi_name, selected_content, selected_type, reasoning, scores, all_content⟩

/-! ## Bounded queues (`queue/manager.py`)

`multiprocessing.Queue` is modelled as a capacity-bounded FIFO list.  The
pipeline uses the queues single-threadedly (no concurrent peer), so a
blocking wait on a full/empty queue can never be satisfied by another
thread: a `put`/`get` given a finite timeout ends in `Full`/`Empty`, and one
with `block=True, timeout=None` blocks forever, modelled as
`BlockResult.blocksForever`. -/

/-- Outcome of a queue operation: normal return, raised error, or an
infinite block (only possible with `block=True, timeout=None` and no
concurrent peer). -/
inductive BlockResult (α : Type) where
  | ok (a : α)
  | err (e : PyError)
  | blocksForever
deriving DecidableEq, Repr

/-- A bounded FIFO queue (`multiprocessing.Queue(maxsize=...)`). -/
structure BQueue (α : Type) where
  items : List α
  maxsize : Nat
deriving DecidableEq, Repr

/-- `Queue.put(item, block, timeout)` with no concurrent consumer. -/
def BQueue.put {α : Type} (q : BQueue α) (a : α) (block : Bool) (timeout : Option Nat) :
    BlockResult (BQueue α) :=
  if q.items.length < q.maxsize then .ok ⟨q.items ++ [a], q.maxsize⟩
  else if block = false then .err .queueFull
  else
    match timeout with
    | some _ => .err .queueFull
    | none => .blocksForever

/-- `Queue.get(block, timeout)` with no concurrent producer. -/
def BQueue.get {α : Type} (q : BQueue α) (block : Bool) (timeout : Option Nat) :
    BlockResult (α × BQueue α) :=
  match q.items with
  | a :: rest => .ok (a, ⟨rest, q.maxsize⟩)
  | [] =>
    if block = false then .err .queueEmpty
    else
      match timeout with
      | some _ => .err .queueEmpty
      | none => .blocksForever

/-- A blocking `put` with no timeout and no concurrent consumer either
succeeds or blocks forever (`none`). -/
def BQueue.putB {α : Type} (q : BQueue α) (a : α) : Option (BQueue α) :=
  match q.put a true none with
  | .ok q2 => some q2
  | _ => none

/-- `QueueManager` from `queue/manager.py`: three bounded queues. -/
structure QueueManager where
  poi_queue : BQueue POI
  results_queue : BQueue ContentResult
  judgment_queue : BQueue JudgmentResult
deriving DecidableEq, Repr

/-- The default `QueueManager()` (sizes 10 / 30 / 10, all queues empty). -/
def defaultQueueManager : QueueManager :=
  ⟨⟨[], 10⟩, ⟨[], 30⟩, ⟨[], 10⟩⟩

/-- `QueueManager.put_poi`. -/
def QueueManager.put_poi (qm : QueueManager) (p : POI) (block : Bool)
    (timeout : Option Nat) : BlockResult QueueManager :=
  match qm.poi_queue.put p block timeout with
  | .ok q2 => .ok { qm with poi_queue := q2 }
  | .err e => .err e
  | .blocksForever => .blocksForever

/-- `QueueManager.get_poi`. -/
def QueueManager.get_poi (qm : QueueManager) (block : Bool) (timeout : Option Nat) :
    BlockResult (POI × QueueManager) :=
  match qm.poi_queue.get block timeout with
  | .ok (p, q2) => .ok (p, { qm with poi_queue := q2 })
  | .err e => .err e
  | .blocksForever => .blocksForever

/-- `QueueManager.put_result`. -/
def QueueManager.put_result (qm : QueueManager) (r : ContentResult) (block : Bool)
    (timeout : Option Nat) : BlockResult QueueManager :=
  match qm.results_queue.put r block timeout with
  | .ok q2 => .ok { qm with results_queue := q2 }
  | .err e => .err e
  | .blocksForever => .blocksForever

/-- `QueueManager.get_result`. -/
def QueueManager.get_result (qm : QueueManager) (block : Bool) (timeout : Option Nat) :
    BlockResult (ContentResult × QueueManager) :=
  match qm.results_queue.get block timeout with
  | .ok (r, q2) => .ok (r, { qm with results_queue := q2 })
  | .err e => .err e
  | .blocksForever => .blocksForever

/-- `QueueManager.put_judgment`. -/
def QueueManager.put_judgment (qm : QueueManager) (j : JudgmentResult) (block : Bool)
    (timeout : Option Nat) : BlockResult QueueManager :=
  match qm.judgment_queue.put j block timeout with
  | .ok q2 => .ok { qm with judgment_queue := q2 }
  | .err e => .err e
  | .blocksForever => .blocksForever

/-- `QueueManager.get_judgment`. -/
def QueueManager.get_judgment (qm : QueueManager) (block : Bool) (timeout : Option Nat) :
    BlockResult (JudgmentResult × QueueManager) :=
  match qm.judgment_queue.get block timeout with
  | .ok (j, q2) => .ok (j, { qm with judgment_queue := q2 })
  | .err e => .err e
  | .blocksForever => .blocksForever

/-! ## Worker (`parallel/worker.py`) -/

/-- Outcome of `agent_class(); agent.run(poi)` for one call: the external
generation service either returns a `ContentResult` or raises.  `exn`
carries `str(e)` and `type(e).__name__`. -/
inductive GenOutcome where
  | ok (r : ContentResult)
  | exn (msg : String) (ty : String)
deriving DecidableEq, Repr

/-- Keys of the `agent_classes` dict in `content_worker`. -/
def agent_classes : List String := ["youtube", "spotify", "history"]

/-- The failure `ContentResult` built by `content_worker`'s `except` block. -/
def workerFailResult (agent_type : String) (msg ty : String) (poi : POI) : ContentResult :=
  { content_type := agent_type
    title := "Error: " ++ agent_type ++ " agent failed"
    description := "Agent failed with error: " ++ msg
    relevance_score := 0
    metadata := [("error", msg), ("error_type", ty)]
    agent_name := agent_type
    poi_name := poi.name }

/-- `content_worker(agent_type, poi)` from `parallel/worker.py`.  `env`
gives the outcome of instantiating and running the agent for this call.
Raises `ValueError` when `agent_type` is not a key of `agent_classes`;
otherwise any agent exception is converted into a failure result. -/
def content_worker (env : String → GenOutcome) (agent_type : String) (poi : POI) :
    Except PyError ContentResult :=
  if agent_type ∉ agent_classes then
    .error (.valueError ("Invalid agent_type: " ++ agent_type))
  else
    match env agent_type with
    | .ok r => .ok r
    | .exn msg ty => .ok (workerFailResult agent_type msg ty poi)

/-- The `ContentResult` a worker call ends with for a valid agent type:
the service result on success, the converted failure result otherwise. -/
def workerRes (env : String → GenOutcome) (agent_type : String) (poi : POI) : ContentResult :=
  match env agent_type with
  | .ok r => r
  | .exn msg ty => workerFailResult agent_type msg ty poi

/-! ## Fan-out executor (`parallel/executor.py`) -/

/-- Outcome of the `multiprocessing` fan-out for one `process_poi` call:
all workers finish before the deadline, the shared deadline elapses
(`done` records which tasks had completed — the code cannot recover their
results), or the orchestration machinery itself raises. -/
inductive PoolOutcome where
  | allDone
  | timeout (done : List String)
  | failure (msg : String) (ty : String)

/-- Environment of one `process_poi` call: the per-agent generation
outcomes and the pool outcome. -/
structure ExecEnv where
  wenv : String → GenOutcome
  outcome : PoolOutcome

/-- The task list built by `process_poi` (agent types, in order). -/
def tasks : List String := ["youtube", "spotify", "history"]

/-- The timeout-failure `ContentResult` substituted by `process_poi`'s
`mp.TimeoutError` handler. -/
def timeoutResult (t : Int) (agent_type : String) (poi : POI) : ContentResult :=
  { content_type := agent_type
    title := "Error: " ++ agent_type ++ " agent timeout"
    description := "Agent exceeded timeout of " ++ toString t ++ "s"
    relevance_score := 0
    metadata := [("error", "timeout")]
    agent_name := agent_type
    poi_name := poi.name }

/-- The generic-failure `ContentResult` substituted by `process_poi`'s
outer `except Exception` handler. -/
def execFailResult (msg ty : String) (agent_type : String) (poi : POI) : ContentResult :=
  { content_type := agent_type
    title := "Error: " ++ agent_type ++ " agent failed"
    description := "Parallel execution failed: " ++ msg
    relevance_score := 0
    metadata := [("error", msg), ("error_type", ty)]
    agent_name := agent_type
    poi_name := poi.name }

/-- `ParallelExecutor.process_poi` from `parallel/executor.py`.  When the
pool completes before the deadline, `async_result.get` returns the three
worker results (re-raising a worker exception into the outer handler);
on `mp.TimeoutError` it appends a timeout-failure result for every task
(the partial results are not recoverable from `starmap_async`); on any
other exception it appends a generic-failure result for every task. -/
def ParallelExecutor.process_poi (t : Int) (env : ExecEnv) (poi : POI) :
    List ContentResult :=
  match env.outcome with
  | .allDone =>
    match content_worker env.wenv "youtube" poi, content_worker env.wenv "spotify" poi,
        content_worker env.wenv "history" poi with
    | .ok r1, .ok r2, .ok r3 => [r1, r2, r3]
    | .error (.valueError m), _, _ => tasks.map (fun a => execFailResult m "ValueError" a poi)
    | _, .error (.valueError m), _ => tasks.map (fun a => execFailResult m "ValueError" a poi)
    | _, _, .error (.valueError m) => tasks.map (fun a => execFailResult m "ValueError" a poi)
    | _, _, _ => tasks.map (fun a => execFailResult "worker error" "Exception" a poi)
  | .timeout _ => tasks.map (fun a => timeoutResult t a poi)
  | .failure msg ty => tasks.map (fun a => execFailResult msg ty a poi)

/-- Insertion into a Python dict: overwrites the value of an existing key
in place, otherwise appends at the end (insertion order preserved). -/
def dictInsert {α : Type} (k : String) (v : α) : List (String × α) → List (String × α)
  | [] => [(k, v)]
  | (k0, v0) :: rest =>
    if k0 = k then (k0, v) :: rest else (k0, v0) :: dictInsert k v rest

/-- Python dict lookup. -/
def dictLookup {α : Type} (k : String) : List (String × α) → Option α
  | [] => none
  | (k0, v0) :: rest => if k0 = k then some v0 else dictLookup k rest

/-- The loop of `ParallelExecutor.process_all_pois`:
`results_by_poi[poi.name] = self.process_poi(poi)` for each poi, with
`envs i` the environment of the `i`-th call. -/
def processAllFrom (t : Int) (envs : Nat → ExecEnv) (i : Nat) (pois : List POI)
    (acc : List (String × List ContentResult)) : List (String × List ContentResult) :=
  match pois with
  | [] => acc
  | poi :: rest =>
    processAllFrom t envs (i + 1) rest
      (dictInsert poi.name (ParallelExecutor.process_poi t (envs i) poi) acc)

/-- `ParallelExecutor.process_all_pois` from `parallel/executor.py`:
processes POIs sequentially, keying the result dict by `poi.name`. -/
def ParallelExecutor.process_all_pois (t : Int) (envs : Nat → ExecEnv)
    (pois : List POI) : List (String × List ContentResult) :=
  processAllFrom t envs 0 pois []

/-! ## Selection stage (`agents/judge.py`) -/

/-- The structured shape `JudgeAgent.run` expects from the parsed Claude
response: `selected` and `reasoning` may be missing, `scores` defaults to
an empty dict. -/
structure JudgeResponse where
  selected : Option String
  reasoning : Option String
  scores : List (String × Int)
deriving DecidableEq, Repr

/-- Environment of one judging call: `call_claude` raises (`ClaudeError`
or any other exception), `_parse_json_response` raises, or parsing yields
a `JudgeResponse`. -/
inductive JudgeEnv where
  | callFails (msg : String)
  | parseFails (msg : String)
  | parsed (d : JudgeResponse)
deriving DecidableEq, Repr

/-- The tie-break priority dict of `_fallback_selection`:
`{"history": 3, "youtube": 2, "spotify": 1}` with `.get(_, 0)`. -/
def fallbackPriority (content_type : String) : Int :=
  if content_type = "history" then 3
  else if content_type = "youtube" then 2
  else if content_type = "spotify" then 1
  else 0

/-- The sort relation of `_fallback_selection`: `a` comes no later than `b`
when its key `(relevance_score, priority)` is lexicographically ≥ `b`'s
(`sorted(..., reverse=True)` is stable, so ties keep input order). -/
def keyGE (a b : ContentResult) : Prop :=
  b.relevance_score < a.relevance_score ∨
    (a.relevance_score = b.relevance_score ∧
      fallbackPriority b.content_type ≤ fallbackPriority a.content_type)

instance : DecidableRel keyGE := by
  unfold keyGE; infer_instance

instance : IsTotal ContentResult keyGE where
  total a b := by
    unfold keyGE
    rcases lt_trichotomy a.relevance_score b.relevance_score with h | h | h
    · exact Or.inr (Or.inl h)
    · rcases le_total (fallbackPriority a.content_type) (fallbackPriority b.content_type) with
        hp | hp
      · exact Or.inr (Or.inr ⟨h.symm, hp⟩)
      · exact Or.inl (Or.inr ⟨h, hp⟩)
    · exact Or.inl (Or.inl h)

instance : IsTrans ContentResult keyGE where
  trans a b c hab hbc := by
    unfold keyGE at *
    rcases hab with hab | ⟨hab1, hab2⟩
    · rcases hbc with hbc | ⟨hbc1, hbc2⟩
      · exact Or.inl (hbc.trans hab)
      · exact Or.inl (hbc1 ▸ hab)
    · rcases hbc with hbc | ⟨hbc1, hbc2⟩
      · exact Or.inl (hab1 ▸ hbc)
      · exact Or.inr ⟨hab1.trans hbc1, hbc2.trans hab2⟩

/-- `sorted(content_list, key=lambda x: (x.relevance_score, priority), reverse=True)`:
a stable descending sort on the lexicographic key. -/
def sortedContent (l : List ContentResult) : List ContentResult :=
  List.insertionSort keyGE l

/-- The dict comprehension
`{content.content_type: content.relevance_score for content in content_list}`. -/
def scoresDict (l : List ContentResult) : List (String × Int) :=
  l.foldl (fun acc r => dictInsert r.content_type r.relevance_score acc) []

/-- `JudgeAgent._fallback_selection` (`agents/judge.py` lines 148-183):
selects the head of the stable descending sort by
`(relevance_score, priority)`; indexing an empty sorted list would raise. -/
def JudgeAgent.fallback_selection (poi_name : String) (content_list : List ContentResult) :
    Except PyError JudgmentResult :=
  match sortedContent content_list with
  | [] => .error (.valueError "list index out of range")
  | selected :: _ =>
    mkJudgmentResult poi_name selected selected.content_type
      ("Selected " ++ selected.content_type ++ " based on highest relevance score ("
        ++ toString selected.relevance_score ++ ").")
      (scoresDict content_list) content_list

/-- One element of the Python-level input list of `JudgeAgent.run`: either
a `ContentResult` or some other object. -/
inductive JudgeItem where
  | cr (r : ContentResult)
  | notCR
deriving Repr

/-- `isinstance(item, ContentResult)`. -/
def JudgeItem.isCR : JudgeItem → Bool
  | .cr _ => true
  | .notCR => false

/-- Extraction used after the all-`ContentResult` validation has passed;
the `.notCR` branch is unreachable under that guard. -/
def JudgeItem.getCR : JudgeItem → ContentResult
  | .cr r => r
  | .notCR => ⟨"", "", "", 0, [], "", ""⟩

/-- The Python-level argument of `JudgeAgent.run`: either not a list at
all, or a list of objects. -/
inductive JudgeInput where
  | notList
  | isList (items : List JudgeItem)

/-- `JudgeAgent.run` (`agents/judge.py` lines 31-117).  Validates the
input (raising `AgentError` on caller error), selects trivially for a
single option, otherwise attempts the Claude-assisted primary path and
falls back to `_fallback_selection` whenever the call fails, the response
cannot be parsed, required fields are missing, or the named winner matches
no supplied result. -/
def JudgeAgent.run (env : JudgeEnv) : JudgeInput → Except PyError JudgmentResult
  | .notList => .error (.agentError "Input must be a list of ContentResult objects")
  | .isList items =>
    if items.length = 0 then .error (.agentError "Cannot evaluate empty content list")
    else if items.all JudgeItem.isCR = false then
      .error (.agentError "All items must be ContentResult objects")
    else
      match items.map JudgeItem.getCR with
      | [] => .error (.agentError "Cannot evaluate empty content list")
      | first :: restCR =>
        if restCR.length = 0 then
          mkJudgmentResult (if first.poi_name = "" then "Unknown POI" else first.poi_name)
            first first.content_type
            ("Only one content option was available. Selected "
              ++ first.content_type ++ " by default.")
            [(first.content_type, first.relevance_score)] (first :: restCR)
        else
          match env with
          | .callFails _ =>
            JudgeAgent.fallback_selection
              (if first.poi_name = "" then "Unknown POI" else first.poi_name)
              (first :: restCR)
          | .parseFails _ =>
            JudgeAgent.fallback_selection
              (if first.poi_name = "" then "Unknown POI" else first.poi_name)
              (first :: restCR)
          | .parsed d =>
            match d.selected, d.reasoning with
            | some selected_type, some reasoning =>
              match (first :: restCR).find? (fun c => c.content_type = selected_type) with
              | some c =>
                mkJudgmentResult
                  (if first.poi_name = "" then "Unknown POI" else first.poi_name)
                  c selected_type reasoning d.scores (first :: restCR)
              | none =>
                JudgeAgent.fallback_selection
                  (if first.poi_name = "" then "Unknown POI" else first.poi_name)
                  (first :: restCR)
            | _, _ =>
              JudgeAgent.fallback_selection
                (if first.poi_name = "" then "Unknown POI" else first.poi_name)
                (first :: restCR)

/-! ## Pipeline orchestrator (`parallel/pipeline.py`) -/

/-- Outcome of one `self.judge_agent.run(results)` call as seen by the
pipeline: the judge collaborator (a `JudgeAgent` by default, injectable in
the constructor) returns a judgment or raises. -/
inductive JudgeCallOutcome where
  | returns (j : JudgmentResult)
  | raises (msg : String)

/-- Environment of one pipeline run: the executor environment of the
`i`-th `process_poi` call and the outcome of the `i`-th judge call. -/
structure PipelineEnv where
  execEnvs : Nat → ExecEnv
  judgeCalls : Nat → JudgeCallOutcome

/-- Step 1 of `ContentPipeline.run`: blocking `put_poi` for every POI
(blocks forever — `none` — once the queue is at capacity, since nothing
dequeues concurrently). -/
def putAllPois (qm : QueueManager) : List POI → Option QueueManager
  | [] => some qm
  | p :: rest =>
    match qm.poi_queue.putB p with
    | some q2 => putAllPois { qm with poi_queue := q2 } rest
    | none => none

/-- Blocking `put_result` for each result of one POI. -/
def putResultsList (qm : QueueManager) : List ContentResult → Option QueueManager
  | [] => some qm
  | r :: rest =>
    match qm.results_queue.putB r with
    | some q2 => putResultsList { qm with results_queue := q2 } rest
    | none => none

/-- Step 4 of `ContentPipeline.run`: enqueue every result of every entry
of `results_by_poi`. -/
def putAllResults (qm : QueueManager) :
    List (String × List ContentResult) → Option QueueManager
  | [] => some qm
  | (_, results) :: rest =>
    match putResultsList qm results with
    | some qm2 => putAllResults qm2 rest
    | none => none

/-- Step 6 of `ContentPipeline.run`: blocking `put_judgment` for every
judgment. -/
def putAllJudgments (qm : QueueManager) : List JudgmentResult → Option QueueManager
  | [] => some qm
  | j :: rest =>
    match qm.judgment_queue.putB j with
    | some q2 => putAllJudgments { qm with judgment_queue := q2 } rest
    | none => none

/-- Step 5 of `ContentPipeline.run` (`parallel/pipeline.py` lines 92-109):
judge each entry; if the judge call raises and the entry has at least one
result, substitute a fallback judgment built from `results[0]` — whose
construction runs `__post_init__` outside any handler, so a `ValueError`
there propagates (`Except.error`). -/
def judgeAll (jc : Nat → JudgeCallOutcome) (i : Nat) :
    List (String × List ContentResult) → Except PyError (List JudgmentResult)
  | [] => .ok []
  | (poi_name, results) :: rest =>
    match jc i with
    | .returns j => (judgeAll jc (i + 1) rest).map (fun js => j :: js)
    | .raises msg =>
      match results with
      | [] => judgeAll jc (i + 1) rest
      | r0 :: rs =>
        match mkJudgmentResult poi_name r0 r0.content_type
            ("Judge agent failed, using fallback: " ++ msg)
            (scoresDict (r0 :: rs)) (r0 :: rs) with
        | .ok fj => (judgeAll jc (i + 1) rest).map (fun js => fj :: js)
        | .error e => .error e

/-- `ContentPipeline.run` (`parallel/pipeline.py` lines 48-119).  `none`
models the call never returning (a blocking queue `put` that can never be
satisfied); `some (.error e)` models an escaped exception; `some (.ok _)`
a normal return of the judgments and the final queue state. -/
def ContentPipeline.run (t : Int) (env : PipelineEnv) (qm : QueueManager)
    (pois : List POI) : Option (Except PyError (List JudgmentResult × QueueManager)) :=
  if pois.isEmpty then some (.ok ([], qm))
  else
    match putAllPois qm pois with
    | none => none
    | some qm1 =>
      let results_by_poi := ParallelExecutor.process_all_pois t env.execEnvs pois
      match putAllResults qm1 results_by_poi with
      | none => none
      | some qm2 =>
        match judgeAll env.judgeCalls 0 results_by_poi with
        | .error e => some (.error e)
        | .ok judgments =>
          match putAllJudgments qm2 judgments with
          | none => none
          | some qm3 => some (.ok (judgments, qm3))

/-- The loop of `ContentPipeline.run_with_queue_only` (`parallel/pipeline.py`
lines 140-167).  Any exception inside the loop body — `queue.Empty` from
`get_poi(timeout=5)`, a raising judge call, a `queue.Full` from a timed
put — is caught by `except Exception` and breaks the loop, returning the
judgments accumulated so far; a blocking put that can never be satisfied
makes the whole call block forever (`none`). -/
def runQueueOnlyGo (t : Int) (env : PipelineEnv) (qm : QueueManager) (i : Nat)
    (remaining : Nat) (acc : List JudgmentResult) :
    Option (List JudgmentResult × QueueManager) :=
  match remaining with
  | 0 => some (acc, qm)
  | rem + 1 =>
    match qm.get_poi true (some 5) with
    | .err _ => some (acc, qm)
    | .blocksForever => none
    | .ok (poi, qm1) =>
      let results := ParallelExecutor.process_poi t (env.execEnvs i) poi
      match putResultsList qm1 results with
      | none => none
      | some qm2 =>
        match env.judgeCalls i with
        | .raises _ => some (acc, qm2)
        | .returns j =>
          match qm2.judgment_queue.putB j with
          | none => none
          | some jq =>
            runQueueOnlyGo t env { qm2 with judgment_queue := jq } (i + 1) rem
              (acc ++ [j])

/-- `ContentPipeline.run_with_queue_only(poi_count)`. -/
def ContentPipeline.run_with_queue_only (t : Int) (env : PipelineEnv)
    (qm : QueueManager) (poi_count : Nat) :
    Option (List JudgmentResult × QueueManager) :=
  runQueueOnlyGo t env qm 0 poi_count []

/-! ## Lemmas: worker and executor -/

theorem content_worker_eq_ok (env : String → GenOutcome) (a : String) (poi : POI)
    (h : a ∈ agent_classes) : content_worker env a poi = .ok (workerRes env a poi) := by
  unfold content_worker workerRes
  rw [if_neg (not_not_intro h)]
  cases env a <;> rfl

theorem process_poi_allDone (t : Int) (wenv : String → GenOutcome) (poi : POI) :
    ParallelExecutor.process_poi t ⟨wenv, .allDone⟩ poi =
      [workerRes wenv "youtube" poi, workerRes wenv "spotify" poi,
        workerRes wenv "history" poi] := by
  unfold ParallelExecutor.process_poi
  rw [content_worker_eq_ok wenv "youtube" poi (by decide),
    content_worker_eq_ok wenv "spotify" poi (by decide),
    content_worker_eq_ok wenv "history" poi (by decide)]

theorem process_poi_timeout (t : Int) (wenv : String → GenOutcome) (done : List String)
    (poi : POI) :
    ParallelExecutor.process_poi t ⟨wenv, .timeout done⟩ poi =
      [timeoutResult t "youtube" poi, timeoutResult t "spotify" poi,
        timeoutResult t "history" poi] := rfl

theorem process_poi_failure (t : Int) (wenv : String → GenOutcome) (msg ty : String)
    (poi : POI) :
    ParallelExecutor.process_poi t ⟨wenv, .failure msg ty⟩ poi =
      [execFailResult msg ty "youtube" poi, execFailResult msg ty "spotify" poi,
        execFailResult msg ty "history" poi] := rfl

theorem process_poi_length (t : Int) (env : ExecEnv) (poi : POI) :
    (ParallelExecutor.process_poi t env poi).length = 3 := by
  obtain ⟨wenv, outcome⟩ := env
  cases outcome with
  | allDone => rw [process_poi_allDone]; rfl
  | timeout done => rw [process_poi_timeout]; rfl
  | failure msg ty => rw [process_poi_failure]; rfl

theorem process_poi_ne_nil (t : Int) (env : ExecEnv) (poi : POI) :
    ParallelExecutor.process_poi t env poi ≠ [] := by
  intro h
  have := process_poi_length t env poi
  rw [h] at this
  exact absurd this (by decide)

/-- An execution environment is agent-typed when every successful service
call returns a result labelled with its own agent type (which the real
agents do by construction). -/
def ExecEnv.agentTyped (env : ExecEnv) : Prop :=
  ∀ a r, env.wenv a = .ok r → r.content_type = a

/-- An execution environment is well typed when every successful service
call returns a result whose category passed `ContentResult.__post_init__`
(true of every Python `ContentResult` instance). -/
def ExecEnv.wellTyped (env : ExecEnv) : Prop :=
  ∀ a r, env.wenv a = .ok r → r.typeOk

theorem workerRes_type (env : String → GenOutcome) (a : String) (poi : POI)
    (h : ∀ r, env a = .ok r → r.content_type = a) :
    (workerRes env a poi).content_type = a := by
  unfold workerRes
  cases henv : env a with
  | ok r => exact h r henv
  | exn msg ty => rfl

theorem workerRes_typeOk (env : String → GenOutcome) (a : String) (poi : POI)
    (ha : a ∈ valid_types) (h : ∀ r, env a = .ok r → r.typeOk) :
    (workerRes env a poi).typeOk := by
  unfold workerRes
  cases henv : env a with
  | ok r => exact h r henv
  | exn msg ty => exact ha

theorem process_poi_types (t : Int) (env : ExecEnv) (poi : POI) (h : env.agentTyped) :
    (ParallelExecutor.process_poi t env poi).map ContentResult.content_type = tasks := by
  obtain ⟨wenv, outcome⟩ := env
  cases outcome with
  | allDone =>
    rw [process_poi_allDone]
    have h1 := workerRes_type wenv "youtube" poi (fun r hr => h "youtube" r hr)
    have h2 := workerRes_type wenv "spotify" poi (fun r hr => h "spotify" r hr)
    have h3 := workerRes_type wenv "history" poi (fun r hr => h "history" r hr)
    simp [tasks, h1, h2, h3]
  | timeout done => rw [process_poi_timeout]; rfl
  | failure msg ty => rw [process_poi_failure]; rfl

theorem process_poi_typeOk (t : Int) (env : ExecEnv) (poi : POI) (h : env.wellTyped) :
    ∀ r ∈ ParallelExecutor.process_poi t env poi, r.typeOk := by
  obtain ⟨wenv, outcome⟩ := env
  cases outcome with
  | allDone =>
    rw [process_poi_allDone]
    intro r hr
    have h1 := workerRes_typeOk wenv "youtube" poi (by decide) (fun r hr => h "youtube" r hr)
    have h2 := workerRes_typeOk wenv "spotify" poi (by decide) (fun r hr => h "spotify" r hr)
    have h3 := workerRes_typeOk wenv "history" poi (by decide) (fun r hr => h "history" r hr)
    simp only [List.mem_cons, List.not_mem_nil, or_false] at hr
    rcases hr with rfl | rfl | rfl
    · exact h1
    · exact h2
    · exact h3
  | timeout done =>
    rw [process_poi_timeout]
    intro r hr
    simp only [List.mem_cons, List.not_mem_nil, or_false] at hr
    rcases hr with rfl | rfl | rfl
    · exact (by decide : ("youtube" : String) ∈ valid_types)
    · exact (by decide : ("spotify" : String) ∈ valid_types)
    · exact (by decide : ("history" : String) ∈ valid_types)
  | failure msg ty =>
    rw [process_poi_failure]
    intro r hr
    simp only [List.mem_cons, List.not_mem_nil, or_false] at hr
    rcases hr with rfl | rfl | rfl
    · exact (by decide : ("youtube" : String) ∈ valid_types)
    · exact (by decide : ("spotify" : String) ∈ valid_types)
    · exact (by decide : ("history" : String) ∈ valid_types)

/-! ## Concrete instances used by witnesses and counterexamples -/

/-- A concrete POI. -/
def poiEx : POI := ⟨"Eiffel Tower", 0, 0, "Iron lattice tower", .historical, 1⟩

/-- A concrete successful youtube result (relevance 50). -/
def crReal : ContentResult :=
  ⟨"youtube", "Real video", "A real result", 50, [], "youtube", "Eiffel Tower"⟩

/-- A generation environment whose youtube call succeeds with `crReal`
and whose other calls raise. -/
def wenvEx : String → GenOutcome := fun a =>
  if a = "youtube" then .ok crReal else .exn "hang" "RuntimeError"

/-! ## Claims C1, C2, C5 -/

/-- C1: for every POI, `ParallelExecutor.process_poi` returns a list of
exactly 3 `ContentResult`s in every branch — all workers succeed, the
shared deadline elapses, or the orchestration mechanism itself raises
(the branches are the constructors of `PoolOutcome`, universally
quantified here) — and, whenever the generation service labels results
with their own category, they are one per category youtube, spotify,
history. -/
theorem C1_process_poi_always_three (t : Int) (env : ExecEnv) (poi : POI) :
    (ParallelExecutor.process_poi t env poi).length = 3 ∧
      (env.agentTyped →
        (ParallelExecutor.process_poi t env poi).map ContentResult.content_type = tasks) :=
  ⟨process_poi_length t env poi, fun h => process_poi_types t env poi h⟩

/-- Witness for C1 at a concrete environment (youtube succeeds, the other
two workers raise, the pool completes in time). -/
theorem C1_process_poi_always_three_witness :
    (ParallelExecutor.process_poi 30 ⟨wenvEx, .allDone⟩ poiEx).length = 3 ∧
      (ParallelExecutor.process_poi 30 ⟨wenvEx, .allDone⟩ poiEx).map
        ContentResult.content_type = tasks :=
  ⟨(C1_process_poi_always_three 30 ⟨wenvEx, .allDone⟩ poiEx).1,
   (C1_process_poi_always_three 30 ⟨wenvEx, .allDone⟩ poiEx).2 (by
     intro a r h
     replace h : wenvEx a = GenOutcome.ok r := h
     unfold wenvEx at h
     by_cases ha : a = "youtube"
     · subst ha; rw [if_pos rfl] at h; cases h; rfl
     · rw [if_neg ha] at h; cases h)⟩

/-- C2 counterexample: with a 30-second deadline the youtube task completed
before the deadline with the real result `crReal` (the environment records
it among the `done` tasks and its service outcome is `.ok crReal`), yet the
returned list does not contain the real result: every returned element is a
zero-score timeout substitute, contradicting the claim that completed tasks
keep their real result. -/
theorem C2_counterexample :
    crReal.relevance_score = 50 ∧
    crReal ∉ ParallelExecutor.process_poi 30 ⟨wenvEx, .timeout ["youtube"]⟩ poiEx ∧
    ∀ r ∈ ParallelExecutor.process_poi 30 ⟨wenvEx, .timeout ["youtube"]⟩ poiEx,
      r.relevance_score = 0 := by decide

/-- C2 (amended): when the shared deadline elapses, `process_poi`
substitutes a timeout-failure result (`relevance_score = 0`, category
preserved, metadata marking `timeout`) for ALL three tasks, regardless of
which tasks completed; real results of completed tasks are discarded. -/
theorem C2_amended_timeout_replaces_all (t : Int) (wenv : String → GenOutcome)
    (done : List String) (poi : POI) :
    ParallelExecutor.process_poi t ⟨wenv, .timeout done⟩ poi =
      [timeoutResult t "youtube" poi, timeoutResult t "spotify" poi,
        timeoutResult t "history" poi] ∧
    ∀ r ∈ ParallelExecutor.process_poi t ⟨wenv, .timeout done⟩ poi,
      r.relevance_score = 0 ∧ dictLookup "error" r.metadata = some "timeout" := by
  refine ⟨process_poi_timeout t wenv done poi, ?_⟩
  intro r hr
  rw [process_poi_timeout] at hr
  simp only [List.mem_cons, List.not_mem_nil, or_false] at hr
  rcases hr with rfl | rfl | rfl <;> exact ⟨rfl, rfl⟩

/-- Witness for the amended C2 at a concrete timed-out fan-out. -/
theorem C2_amended_timeout_replaces_all_witness :
    ParallelExecutor.process_poi 30 ⟨wenvEx, .timeout ["youtube"]⟩ poiEx =
      [timeoutResult 30 "youtube" poiEx, timeoutResult 30 "spotify" poiEx,
        timeoutResult 30 "history" poiEx] ∧
    (timeoutResult 30 "youtube" poiEx).relevance_score = 0 ∧
    dictLookup "error" (timeoutResult 30 "youtube" poiEx).metadata = some "timeout" :=
  ⟨(C2_amended_timeout_replaces_all 30 wenvEx ["youtube"] poiEx).1,
   (C2_amended_timeout_replaces_all 30 wenvEx ["youtube"] poiEx).2
     (timeoutResult 30 "youtube" poiEx) (by decide)⟩

/-- C5 counterexample: `content_worker` raises `ValueError` for an invalid
category string ("podcast"), contradicting the claim that it returns a
`ContentResult` and never raises for every category string (the worker's
own docstring documents this raise). -/
theorem C5_counterexample :
    content_worker wenvEx "podcast" poiEx =
      .error (.valueError "Invalid agent_type: podcast") := by decide

/-- C5 (amended): for each of the three valid category strings,
`content_worker` never raises: a successful service call is passed
through, and any service exception is converted into a failure result
carrying the category, the location name, `relevance_score = 0` and the
error description in metadata.  For any other category string it raises
`ValueError`. -/
theorem C5_amended_worker_total_on_valid (env : String → GenOutcome) (c : String)
    (poi : POI) (hc : c ∈ agent_classes) :
    content_worker env c poi = .ok (workerRes env c poi) ∧
    (∀ r, env c = .ok r → workerRes env c poi = r) ∧
    ∀ msg ty, env c = .exn msg ty →
      workerRes env c poi = workerFailResult c msg ty poi ∧
      (workerFailResult c msg ty poi).relevance_score = 0 ∧
      (workerFailResult c msg ty poi).content_type = c ∧
      (workerFailResult c msg ty poi).poi_name = poi.name ∧
      dictLookup "error" (workerFailResult c msg ty poi).metadata = some msg := by
  refine ⟨content_worker_eq_ok env c poi hc, ?_, ?_⟩
  · intro r h
    unfold workerRes
    rw [h]
  · intro msg ty h
    unfold workerRes
    rw [h]
    exact ⟨rfl, rfl, rfl, rfl, rfl⟩

/-- Witness for the amended C5 at the concrete category "spotify" (whose
service call raises in `wenvEx`, exercising the conversion path). -/
theorem C5_amended_worker_total_on_valid_witness :
    content_worker wenvEx "spotify" poiEx = .ok (workerRes wenvEx "spotify" poiEx) ∧
    workerRes wenvEx "spotify" poiEx = workerFailResult "spotify" "hang" "RuntimeError" poiEx :=
  ⟨(C5_amended_worker_total_on_valid wenvEx "spotify" poiEx (by decide)).1,
   ((C5_amended_worker_total_on_valid wenvEx "spotify" poiEx (by decide)).2.2
     "hang" "RuntimeError" (by decide)).1⟩

/-! ## Lemmas: dict operations and process_all_pois -/

theorem dictInsert_mem {α : Type} (k : String) (v : α) (l : List (String × α)) :
    ∀ e ∈ dictInsert k v l, e.2 = v ∨ e ∈ l := by
  induction l with
  | nil =>
    intro e he
    simp only [dictInsert, List.mem_singleton] at he
    subst he
    exact Or.inl rfl
  | cons hd tl ih =>
    intro e he
    obtain ⟨k0, v0⟩ := hd
    simp only [dictInsert] at he
    by_cases hk : k0 = k
    · rw [if_pos hk] at he
      rcases List.mem_cons.mp he with rfl | he
      · exact Or.inl rfl
      · exact Or.inr (List.mem_cons_of_mem _ he)
    · rw [if_neg hk] at he
      rcases List.mem_cons.mp he with rfl | he
      · exact Or.inr (List.mem_cons_self _ _)
      · rcases ih e he with h | h
        · exact Or.inl h
        · exact Or.inr (List.mem_cons_of_mem _ h)

theorem dictInsert_keys {α : Type} (k : String) (v : α) (l : List (String × α)) :
    (dictInsert k v l).map Prod.fst =
      if k ∈ l.map Prod.fst then l.map Prod.fst else l.map Prod.fst ++ [k] := by
  induction l with
  | nil => simp [dictInsert]
  | cons hd tl ih =>
    obtain ⟨k0, v0⟩ := hd
    simp only [dictInsert, List.map_cons]
    by_cases hk : k0 = k
    · subst hk
      simp [List.mem_cons]
    · rw [if_neg hk]
      simp only [List.map_cons, List.mem_cons, ih]
      by_cases hmem : k ∈ tl.map Prod.fst
      · rw [if_pos hmem, if_pos (Or.inr hmem)]
      · rw [if_neg hmem, if_neg (by push_neg; exact ⟨fun h => hk h.symm, hmem⟩)]
        rfl

theorem dictInsert_keys_toFinset {α : Type} (k : String) (v : α) (l : List (String × α)) :
    ((dictInsert k v l).map Prod.fst).toFinset = insert k (l.map Prod.fst).toFinset := by
  rw [dictInsert_keys]
  by_cases hmem : k ∈ l.map Prod.fst
  · rw [if_pos hmem, Finset.insert_eq_self.mpr (List.mem_toFinset.mpr hmem)]
  · rw [if_neg hmem]
    rw [List.toFinset_append]
    simp only [List.toFinset_cons, List.toFinset_nil, insert_emptyc_eq]
    rw [Finset.union_comm]
    ext x
    simp [or_comm]

theorem dictInsert_keys_nodup {α : Type} (k : String) (v : α) (l : List (String × α))
    (h : (l.map Prod.fst).Nodup) : ((dictInsert k v l).map Prod.fst).Nodup := by
  rw [dictInsert_keys]
  by_cases hmem : k ∈ l.map Prod.fst
  · rwa [if_pos hmem]
  · rw [if_neg hmem]
    exact List.Nodup.append h (List.nodup_singleton k)
      (List.disjoint_singleton.mpr hmem)

theorem dictLookup_insert_self {α : Type} (k : String) (v : α) (l : List (String × α)) :
    dictLookup k (dictInsert k v l) = some v := by
  induction l with
  | nil => simp [dictInsert, dictLookup]
  | cons hd tl ih =>
    obtain ⟨k0, v0⟩ := hd
    simp only [dictInsert]
    by_cases hk : k0 = k
    · rw [if_pos hk]
      simp [dictLookup, hk]
    · rw [if_neg hk]
      simp [dictLookup, hk, ih]

theorem processAllFrom_keys_toFinset (t : Int) (envs : Nat → ExecEnv) (pois : List POI) :
    ∀ (i : Nat) (acc : List (String × List ContentResult)),
      ((processAllFrom t envs i pois acc).map Prod.fst).toFinset =
        (acc.map Prod.fst).toFinset ∪ (pois.map POI.name).toFinset := by
  induction pois with
  | nil => intro i acc; simp [processAllFrom]
  | cons p rest ih =>
    intro i acc
    simp only [processAllFrom, List.map_cons, List.toFinset_cons]
    rw [ih, dictInsert_keys_toFinset]
    ext x
    simp only [Finset.mem_union, Finset.mem_insert]
    tauto

theorem processAllFrom_keys_nodup (t : Int) (envs : Nat → ExecEnv) (pois : List POI) :
    ∀ (i : Nat) (acc : List (String × List ContentResult)),
      (acc.map Prod.fst).Nodup → ((processAllFrom t envs i pois acc).map Prod.fst).Nodup := by
  induction pois with
  | nil => intro i acc h; exact h
  | cons p rest ih =>
    intro i acc h
    exact ih (i + 1) _ (dictInsert_keys_nodup _ _ _ h)

theorem process_all_pois_length (t : Int) (envs : Nat → ExecEnv) (pois : List POI) :
    (ParallelExecutor.process_all_pois t envs pois).length =
      (pois.map POI.name).dedup.length := by
  unfold ParallelExecutor.process_all_pois
  have hnd := processAllFrom_keys_nodup t envs pois 0 [] (by simp)
  have hfin := processAllFrom_keys_toFinset t envs pois 0 []
  simp only [List.map_nil, List.toFinset_nil, Finset.empty_union] at hfin
  have hlen : ((processAllFrom t envs 0 pois []).map Prod.fst).length =
      (pois.map POI.name).dedup.length := by
    rw [← List.toFinset_card_of_nodup hnd, hfin, List.card_toFinset]
  rwa [List.length_map] at hlen

theorem processAllFrom_append (t : Int) (envs : Nat → ExecEnv) (p : POI) (xs : List POI) :
    ∀ (i : Nat) (acc : List (String × List ContentResult)),
      processAllFrom t envs i (xs ++ [p]) acc =
        dictInsert p.name (ParallelExecutor.process_poi t (envs (i + xs.length)) p)
          (processAllFrom t envs i xs acc) := by
  induction xs with
  | nil => intro i acc; simp [processAllFrom]
  | cons x rest ih =>
    intro i acc
    have step : processAllFrom t envs i ((x :: rest) ++ [p]) acc =
        processAllFrom t envs (i + 1) (rest ++ [p])
          (dictInsert x.name (ParallelExecutor.process_poi t (envs i) x) acc) := rfl
    rw [step, ih]
    have harith : i + 1 + rest.length = i + (x :: rest).length := by
      simp only [List.length_cons]
      omega
    rw [harith]
    rfl

theorem process_all_pois_last_overwrites (t : Int) (envs : Nat → ExecEnv) (p : POI)
    (xs : List POI) :
    dictLookup p.name (ParallelExecutor.process_all_pois t envs (xs ++ [p])) =
      some (ParallelExecutor.process_poi t (envs xs.length) p) := by
  unfold ParallelExecutor.process_all_pois
  rw [processAllFrom_append, Nat.zero_add, dictLookup_insert_self]

theorem processAllFrom_values (t : Int) (envs : Nat → ExecEnv)
    (P : List ContentResult → Prop)
    (hstep : ∀ n poi, P (ParallelExecutor.process_poi t (envs n) poi)) (pois : List POI) :
    ∀ (i : Nat) (acc : List (String × List ContentResult)),
      (∀ e ∈ acc, P e.2) → ∀ e ∈ processAllFrom t envs i pois acc, P e.2 := by
  induction pois with
  | nil => intro i acc hacc e he; exact hacc e he
  | cons p rest ih =>
    intro i acc hacc e he
    refine ih (i + 1) _ ?_ e he
    intro e2 he2
    rcases dictInsert_mem _ _ _ e2 he2 with h | h
    · rw [h]; exact hstep i p
    · exact hacc e2 h

/-! ## Lemmas: selection stage -/

theorem keyGE_refl (a : ContentResult) : keyGE a a := Or.inr ⟨rfl, le_refl _⟩

theorem sortedContent_perm (l : List ContentResult) : (sortedContent l).Perm l :=
  List.perm_insertionSort keyGE l

theorem sortedContent_head_max (l : List ContentResult) (sel : ContentResult)
    (tl : List ContentResult) (h : sortedContent l = sel :: tl) :
    ∀ r ∈ l, keyGE sel r := by
  intro r hr
  have hmem : r ∈ sortedContent l := ((sortedContent_perm l).mem_iff).mpr hr
  rw [h] at hmem
  rcases List.mem_cons.mp hmem with rfl | hmem
  · exact keyGE_refl r
  · have hs : List.Sorted keyGE (sel :: tl) := h ▸ List.sorted_insertionSort keyGE l
    exact List.rel_of_sorted_cons hs r hmem

theorem mkJudgmentResult_eq_ok (nm : String) (sc : ContentResult) (st re : String)
    (sco : List (String × Int)) (ac : List ContentResult) (h1 : st ∈ valid_types)
    (h2 : sc.content_type = st) :
    mkJudgmentResult nm sc st re sco ac = .ok ⟨nm, sc, st, re, sco, ac⟩ := by
  unfold mkJudgmentResult
  rw [if_neg (not_not_intro h1), if_neg (not_not_intro h2)]

theorem mkJudgmentResult_ok_inv (nm : String) (sc : ContentResult) (st re : String)
    (sco : List (String × Int)) (ac : List ContentResult) (j : JudgmentResult)
    (h : mkJudgmentResult nm sc st re sco ac = .ok j) :
    j = ⟨nm, sc, st, re, sco, ac⟩ ∧ sc.content_type = st ∧ st ∈ valid_types := by
  unfold mkJudgmentResult at h
  by_cases h1 : st ∈ valid_types
  · rw [if_neg (not_not_intro h1)] at h
    by_cases h2 : sc.content_type = st
    · rw [if_neg (not_not_intro h2)] at h
      cases h
      exact ⟨rfl, h2, h1⟩
    · rw [if_pos h2] at h
      cases h
  · rw [if_pos h1] at h
    cases h

theorem fallback_selection_spec (nm : String) (l : List ContentResult) (hne : l ≠ [])
    (hv : ∀ r ∈ l, r.typeOk) :
    ∃ sel, JudgeAgent.fallback_selection nm l =
        .ok ⟨nm, sel, sel.content_type,
          "Selected " ++ sel.content_type ++ " based on highest relevance score ("
            ++ toString sel.relevance_score ++ ").", scoresDict l, l⟩ ∧
      sel ∈ l ∧ (∀ r ∈ l, keyGE sel r) := by
  unfold JudgeAgent.fallback_selection
  cases hs : sortedContent l with
  | nil =>
    have hp := sortedContent_perm l
    rw [hs] at hp
    exact absurd hp.symm.eq_nil hne
  | cons sel tl =>
    have hmem : sel ∈ l :=
      ((sortedContent_perm l).mem_iff).mp (hs ▸ List.mem_cons_self sel tl)
    refine ⟨sel, ?_, hmem, sortedContent_head_max l sel tl hs⟩
    exact mkJudgmentResult_eq_ok nm sel sel.content_type _ _ _ (hv sel hmem) rfl

theorem fallback_selection_inv (nm : String) (l : List ContentResult) (j : JudgmentResult)
    (h : JudgeAgent.fallback_selection nm l = .ok j) :
    j.selected_content.content_type = j.selected_type ∧
      j.selected_content ∈ j.all_content := by
  unfold JudgeAgent.fallback_selection at h
  cases hs : sortedContent l with
  | nil =>
    rw [hs] at h
    cases h
  | cons sel tl =>
    rw [hs] at h
    obtain ⟨hj, h2, h1⟩ := mkJudgmentResult_ok_inv _ _ _ _ _ _ _ h
    subst hj
    refine ⟨h2, ?_⟩
    exact ((sortedContent_perm l).mem_iff).mp (hs ▸ List.mem_cons_self sel tl)

theorem fallback_selection_isOk (nm : String) (l : List ContentResult) (hne : l ≠ [])
    (hv : ∀ r ∈ l, r.typeOk) :
    (JudgeAgent.fallback_selection nm l).isOk = true := by
  obtain ⟨sel, heq, -, -⟩ := fallback_selection_spec nm l hne hv
  rw [heq]
  rfl

theorem getCR_mem (items : List JudgeItem) (hall : items.all JudgeItem.isCR = true) :
    ∀ x ∈ items.map JudgeItem.getCR, JudgeItem.cr x ∈ items := by
  intro x hx
  rcases List.mem_map.mp hx with ⟨it, hit, rfl⟩
  have hcr := List.all_eq_true.mp hall it hit
  cases it with
  | cr r => exact hit
  | notCR => exact absurd hcr (by decide)

theorem judge_run_notList (env : JudgeEnv) :
    JudgeAgent.run env .notList =
      .error (.agentError "Input must be a list of ContentResult objects") := rfl

theorem judge_run_empty (env : JudgeEnv) :
    JudgeAgent.run env (.isList []) =
      .error (.agentError "Cannot evaluate empty content list") := rfl

theorem judge_run_notCR (env : JudgeEnv) (items : List JudgeItem)
    (h : items.all JudgeItem.isCR = false) :
    JudgeAgent.run env (.isList items) =
      .error (.agentError "All items must be ContentResult objects") := by
  cases items with
  | nil => simp [List.all_nil] at h
  | cons it0 rest =>
    simp only [JudgeAgent.run]
    rw [if_neg (by simp), if_pos h]

theorem judge_run_total (env : JudgeEnv) (items : List JudgeItem) (hne : items ≠ [])
    (hall : items.all JudgeItem.isCR = true)
    (hv : ∀ r, JudgeItem.cr r ∈ items → r.typeOk) :
    (JudgeAgent.run env (.isList items)).isOk = true := by
  cases items with
  | nil => exact absurd rfl hne
  | cons it0 rest =>
    have hvmap : ∀ x ∈ (it0 :: rest).map JudgeItem.getCR, x.typeOk :=
      fun x hx => hv x (getCR_mem _ hall x hx)
    have hfirst : (JudgeItem.getCR it0).typeOk :=
      hvmap _ (List.mem_map_of_mem _ (List.mem_cons_self it0 rest))
    simp only [JudgeAgent.run]
    rw [if_neg (by simp), if_neg (by simp [hall]), List.map_cons]
    dsimp only
    by_cases hlen : (rest.map JudgeItem.getCR).length = 0
    · rw [if_pos hlen, mkJudgmentResult_eq_ok _ _ _ _ _ _ hfirst rfl]
      rfl
    · rw [if_neg hlen]
      have hvcons : ∀ r ∈ JudgeItem.getCR it0 :: rest.map JudgeItem.getCR, r.typeOk := by
        intro r hr
        rcases List.mem_cons.mp hr with rfl | hr
        · exact hfirst
        · exact hvmap r (List.mem_cons_of_mem _ hr)
      cases env with
      | callFails msg => exact fallback_selection_isOk _ _ (by simp) hvcons
      | parseFails msg => exact fallback_selection_isOk _ _ (by simp) hvcons
      | parsed d =>
        dsimp only
        cases hsel : d.selected with
        | none =>
          cases hre : d.reasoning with
          | none => dsimp only; exact fallback_selection_isOk _ _ (by simp) hvcons
          | some re => dsimp only; exact fallback_selection_isOk _ _ (by simp) hvcons
        | some st =>
          cases hre : d.reasoning with
          | none => dsimp only; exact fallback_selection_isOk _ _ (by simp) hvcons
          | some re =>
            dsimp only
            cases hfind : (JudgeItem.getCR it0 :: rest.map JudgeItem.getCR).find?
                (fun c => c.content_type = st) with
            | none => dsimp only; exact fallback_selection_isOk _ _ (by simp) hvcons
            | some c =>
              dsimp only
              have hsome := List.find?_some hfind
              have hct : c.content_type = st := of_decide_eq_true hsome
              have hcm : c ∈ JudgeItem.getCR it0 :: rest.map JudgeItem.getCR :=
                List.mem_of_find?_eq_some hfind
              have hst : st ∈ valid_types := hct ▸ hvcons c hcm
              rw [mkJudgmentResult_eq_ok _ _ _ _ _ _ hst hct]
              rfl

theorem judge_run_inv (env : JudgeEnv) (input : JudgeInput) (j : JudgmentResult)
    (h : JudgeAgent.run env input = .ok j) :
    j.selected_content.content_type = j.selected_type ∧
      j.selected_content ∈ j.all_content := by
  cases input with
  | notList => exact Except.noConfusion h
  | isList items =>
    cases items with
    | nil => exact Except.noConfusion (h.symm.trans (judge_run_empty env).symm).symm
    | cons it0 rest =>
      simp only [JudgeAgent.run] at h
      rw [if_neg (by simp), List.map_cons] at h
      by_cases hall : (it0 :: rest).all JudgeItem.isCR = false
      · rw [if_pos hall] at h
        exact Except.noConfusion h
      · rw [if_neg hall] at h
        dsimp only at h
        by_cases hlen : (rest.map JudgeItem.getCR).length = 0
        · rw [if_pos hlen] at h
          obtain ⟨hj, h2, h1⟩ := mkJudgmentResult_ok_inv _ _ _ _ _ _ _ h
          subst hj
          exact ⟨h2, List.mem_cons_self _ _⟩
        · rw [if_neg hlen] at h
          cases env with
          | callFails msg => exact fallback_selection_inv _ _ _ h
          | parseFails msg => exact fallback_selection_inv _ _ _ h
          | parsed d =>
            dsimp only at h
            cases hsel : d.selected with
            | none =>
              rw [hsel] at h
              cases hre : d.reasoning with
              | none => rw [hre] at h; dsimp only at h; exact fallback_selection_inv _ _ _ h
              | some re => rw [hre] at h; dsimp only at h; exact fallback_selection_inv _ _ _ h
            | some st =>
              rw [hsel] at h
              cases hre : d.reasoning with
              | none => rw [hre] at h; dsimp only at h; exact fallback_selection_inv _ _ _ h
              | some re =>
                rw [hre] at h
                dsimp only at h
                cases hfind : (JudgeItem.getCR it0 :: rest.map JudgeItem.getCR).find?
                    (fun c => c.content_type = st) with
                | none => rw [hfind] at h; dsimp only at h; exact fallback_selection_inv _ _ _ h
                | some c =>
                  rw [hfind] at h
                  dsimp only at h
                  obtain ⟨hj, h2, h1⟩ := mkJudgmentResult_ok_inv _ _ _ _ _ _ _ h
                  subst hj
                  exact ⟨h2, List.mem_of_find?_eq_some hfind⟩

/-- Wellformedness of a judge input at the Python level: every
`ContentResult` it contains passed `ContentResult.__post_init__`
(automatically true of every Python instance). -/
def JudgeInput.valid : JudgeInput → Prop
  | .notList => True
  | .isList items => ∀ r, JudgeItem.cr r ∈ items → r.typeOk

/-! ## Claims C4 and C6 -/

/-- C4: for every non-empty list of `ContentResult`s, the fallback path
selects a member with the highest `relevance_score`, and among the results
tied at that maximum one whose category has the maximal rank in the
priority order (history 3 > youtube 2 > spotify 1); being a pure function
of its input, repeated calls return the same selection. -/
theorem C4_fallback_selects_max_with_priority (poi_name : String)
    (l : List ContentResult) (hne : l ≠ []) (hv : ∀ r ∈ l, r.typeOk) :
    fallbackPriority "spotify" < fallbackPriority "youtube" ∧
    fallbackPriority "youtube" < fallbackPriority "history" ∧
    ∃ j, JudgeAgent.fallback_selection poi_name l = .ok j ∧
      j.selected_content ∈ l ∧
      (∀ r ∈ l, r.relevance_score ≤ j.selected_content.relevance_score) ∧
      (∀ r ∈ l, r.relevance_score = j.selected_content.relevance_score →
        fallbackPriority r.content_type ≤
          fallbackPriority j.selected_content.content_type) := by
  refine ⟨by decide, by decide, ?_⟩
  obtain ⟨sel, heq, hmem, hmax⟩ := fallback_selection_spec poi_name l hne hv
  refine ⟨_, heq, hmem, ?_, ?_⟩
  · intro r hr
    rcases hmax r hr with h | ⟨h, _⟩
    · exact le_of_lt h
    · exact le_of_eq h.symm
  · intro r hr hscore
    rcases hmax r hr with h | ⟨_, h⟩
    · exact absurd hscore (ne_of_lt h)
    · exact h

/-- A youtube result tied at score 90. -/
def crTieY : ContentResult := ⟨"youtube", "Tie video", "", 90, [], "youtube", "Eiffel Tower"⟩

/-- A history result tied at score 90. -/
def crHist : ContentResult := ⟨"history", "Hist", "", 90, [], "history", "Eiffel Tower"⟩

/-- Witness for C4 at a concrete two-way tie. -/
theorem C4_fallback_selects_max_with_priority_witness :
    (JudgeAgent.fallback_selection "p" [crTieY, crHist]).isOk = true := by
  obtain ⟨-, -, j, heq, -, -, -⟩ := C4_fallback_selects_max_with_priority "p" [crTieY, crHist]
    (by simp) (by
      intro r hr
      simp only [List.mem_cons, List.not_mem_nil, or_false] at hr
      rcases hr with rfl | rfl
      · exact (by decide : ("youtube" : String) ∈ valid_types)
      · exact (by decide : ("history" : String) ∈ valid_types))
  rw [heq]
  rfl

/-- C6: `JudgeAgent.run` raises if and only if the caller erred — the
input is not a list, is empty, or contains a non-`ContentResult` item.
For every non-empty list of (valid) `ContentResult`s it returns a
`Judgment` for every environment: however the judging call fails, however
malformed its parsed response is, and whether or not the named winner
matches a supplied result. -/
theorem C6_judge_raises_iff_caller_error (env : JudgeEnv) (input : JudgeInput)
    (hv : input.valid) :
    (JudgeAgent.run env input).isOk = true ↔
      ∃ items, input = .isList items ∧ items ≠ [] ∧
        items.all JudgeItem.isCR = true := by
  constructor
  · intro hok
    cases input with
    | notList =>
      rw [judge_run_notList] at hok
      exact absurd hok (by decide)
    | isList items =>
      refine ⟨items, rfl, ?_, ?_⟩
      · rintro rfl
        rw [judge_run_empty] at hok
        exact absurd hok (by decide)
      · by_contra hnall
        have hfalse : items.all JudgeItem.isCR = false := by
          cases hb : items.all JudgeItem.isCR
          · rfl
          · exact absurd hb hnall
        rw [judge_run_notCR env items hfalse] at hok
        exact absurd hok (by decide)
  · rintro ⟨items, rfl, hne, hall⟩
    exact judge_run_total env items hne hall hv

/-- Witness for C6: a parsed response naming a winner ("podcast") that
matches no supplied result still yields a judgment via the fallback. -/
theorem C6_judge_raises_iff_caller_error_witness :
    (JudgeAgent.run (.parsed ⟨some "podcast", some "because", []⟩)
      (.isList [.cr crTieY, .cr crHist])).isOk = true :=
  (C6_judge_raises_iff_caller_error (.parsed ⟨some "podcast", some "because", []⟩)
    (.isList [.cr crTieY, .cr crHist]) (by
      intro r hr
      simp only [List.mem_cons, List.not_mem_nil, or_false, JudgeItem.cr.injEq] at hr
      rcases hr with rfl | rfl
      · exact (by decide : ("youtube" : String) ∈ valid_types)
      · exact (by decide : ("history" : String) ∈ valid_types))).mpr
    ⟨[.cr crTieY, .cr crHist], rfl, by simp, rfl⟩

/-! ## Lemmas: queue steps and the judging loop of the pipeline -/

theorem putB_some {α : Type} (q : BQueue α) (a : α) (h : q.items.length < q.maxsize) :
    q.putB a = some ⟨q.items ++ [a], q.maxsize⟩ := by
  unfold BQueue.putB BQueue.put
  rw [if_pos h]

theorem putB_none {α : Type} (q : BQueue α) (a : α) (h : ¬ q.items.length < q.maxsize) :
    q.putB a = none := by
  unfold BQueue.putB BQueue.put
  rw [if_neg h]
  rfl

theorem putAllPois_some (pois : List POI) : ∀ (qm : QueueManager),
    qm.poi_queue.items.length + pois.length ≤ qm.poi_queue.maxsize →
    putAllPois qm pois =
      some { qm with poi_queue := ⟨qm.poi_queue.items ++ pois, qm.poi_queue.maxsize⟩ } := by
  induction pois with
  | nil =>
    intro qm h
    rw [List.append_nil]
    rfl
  | cons p rest ih =>
    intro qm h
    simp only [List.length_cons] at h
    unfold putAllPois
    rw [putB_some _ _ (by omega)]
    dsimp only
    rw [ih _ (by simp only [List.length_append, List.length_cons, List.length_nil]; omega)]
    rw [List.append_assoc]
    rfl

theorem putAllPois_none (pois : List POI) : ∀ (qm : QueueManager),
    qm.poi_queue.items.length ≤ qm.poi_queue.maxsize →
    qm.poi_queue.maxsize < qm.poi_queue.items.length + pois.length →
    putAllPois qm pois = none := by
  induction pois with
  | nil =>
    intro qm hinv h
    simp only [List.length_nil, Nat.add_zero] at h
    omega
  | cons p rest ih =>
    intro qm hinv h
    simp only [List.length_cons] at h
    unfold putAllPois
    by_cases hlt : qm.poi_queue.items.length < qm.poi_queue.maxsize
    · rw [putB_some _ _ hlt]
      dsimp only
      refine ih _ ?_ ?_ <;>
        simp only [List.length_append, List.length_cons, List.length_nil] <;> omega
    · rw [putB_none _ _ hlt]

theorem putResultsList_some (rs : List ContentResult) : ∀ (qm : QueueManager),
    qm.results_queue.items.length + rs.length ≤ qm.results_queue.maxsize →
    putResultsList qm rs =
      some { qm with results_queue := ⟨qm.results_queue.items ++ rs, qm.results_queue.maxsize⟩ } := by
  induction rs with
  | nil =>
    intro qm h
    rw [List.append_nil]
    rfl
  | cons r rest ih =>
    intro qm h
    simp only [List.length_cons] at h
    unfold putResultsList
    rw [putB_some _ _ (by omega)]
    dsimp only
    rw [ih _ (by simp only [List.length_append, List.length_cons, List.length_nil]; omega)]
    rw [List.append_assoc]
    rfl

/-- Total number of content results across the entries of the results map. -/
def entriesTotal (entries : List (String × List ContentResult)) : Nat :=
  (entries.map (fun e => e.2.length)).sum

theorem putAllResults_some (entries : List (String × List ContentResult)) :
    ∀ (qm : QueueManager),
    qm.results_queue.items.length + entriesTotal entries ≤ qm.results_queue.maxsize →
    putAllResults qm entries =
      some { qm with results_queue :=
        ⟨qm.results_queue.items ++ (entries.map Prod.snd).flatten, qm.results_queue.maxsize⟩ } := by
  induction entries with
  | nil =>
    intro qm h
    simp only [List.map_nil, List.flatten_nil, List.append_nil]
    rfl
  | cons e rest ih =>
    intro qm h
    obtain ⟨nm, rs⟩ := e
    simp only [entriesTotal, List.map_cons, List.sum_cons] at h
    unfold putAllResults
    rw [putResultsList_some _ _ (by omega)]
    dsimp only
    rw [ih _ (by
      simp only [entriesTotal, List.length_append]
      omega)]
    simp only [List.map_cons, List.flatten_cons]
    rw [List.append_assoc]

theorem putAllJudgments_some (js : List JudgmentResult) : ∀ (qm : QueueManager),
    qm.judgment_queue.items.length + js.length ≤ qm.judgment_queue.maxsize →
    putAllJudgments qm js =
      some { qm with judgment_queue :=
        ⟨qm.judgment_queue.items ++ js, qm.judgment_queue.maxsize⟩ } := by
  induction js with
  | nil =>
    intro qm h
    rw [List.append_nil]
    rfl
  | cons j rest ih =>
    intro qm h
    simp only [List.length_cons] at h
    unfold putAllJudgments
    rw [putB_some _ _ (by omega)]
    dsimp only
    rw [ih _ (by simp only [List.length_append, List.length_cons, List.length_nil]; omega)]
    rw [List.append_assoc]
    rfl

theorem judgeAll_ok_length_le (jc : Nat → JudgeCallOutcome)
    (entries : List (String × List ContentResult)) :
    ∀ (i : Nat) (js : List JudgmentResult), judgeAll jc i entries = .ok js →
      js.length ≤ entries.length := by
  induction entries with
  | nil =>
    intro i js h
    unfold judgeAll at h
    cases h
    exact Nat.le_refl 0
  | cons e rest ih =>
    intro i js h
    obtain ⟨nm, rs⟩ := e
    unfold judgeAll at h
    cases hjc : jc i with
    | returns j =>
      rw [hjc] at h
      dsimp only at h
      cases hrec : judgeAll jc (i + 1) rest with
      | error e2 => rw [hrec] at h; exact Except.noConfusion h
      | ok js2 =>
        rw [hrec] at h
        cases h
        simpa using Nat.succ_le_succ (ih (i + 1) js2 hrec)
    | raises msg =>
      rw [hjc] at h
      dsimp only at h
      cases rs with
      | nil =>
        exact Nat.le_succ_of_le (ih (i + 1) js h)
      | cons r0 rs2 =>
        dsimp only at h
        cases hmk : mkJudgmentResult nm r0 r0.content_type
            ("Judge agent failed, using fallback: " ++ msg)
            (scoresDict (r0 :: rs2)) (r0 :: rs2) with
        | error e2 => rw [hmk] at h; exact Except.noConfusion h
        | ok fj =>
          rw [hmk] at h
          dsimp only at h
          cases hrec : judgeAll jc (i + 1) rest with
          | error e2 => rw [hrec] at h; exact Except.noConfusion h
          | ok js2 =>
            rw [hrec] at h
            cases h
            simpa using Nat.succ_le_succ (ih (i + 1) js2 hrec)

theorem judgeAll_ok_length_eq (jc : Nat → JudgeCallOutcome)
    (entries : List (String × List ContentResult))
    (hne : ∀ e ∈ entries, e.2 ≠ []) :
    ∀ (i : Nat) (js : List JudgmentResult), judgeAll jc i entries = .ok js →
      js.length = entries.length := by
  induction entries with
  | nil =>
    intro i js h
    unfold judgeAll at h
    cases h
    rfl
  | cons e rest ih =>
    intro i js h
    obtain ⟨nm, rs⟩ := e
    have hne0 : rs ≠ [] := hne (nm, rs) (List.mem_cons_self _ _)
    have hner : ∀ e ∈ rest, e.2 ≠ [] := fun e he => hne e (List.mem_cons_of_mem _ he)
    unfold judgeAll at h
    cases hjc : jc i with
    | returns j =>
      rw [hjc] at h
      dsimp only at h
      cases hrec : judgeAll jc (i + 1) rest with
      | error e2 => rw [hrec] at h; exact Except.noConfusion h
      | ok js2 =>
        rw [hrec] at h
        cases h
        simpa using ih hner (i + 1) js2 hrec
    | raises msg =>
      rw [hjc] at h
      dsimp only at h
      cases rs with
      | nil => exact absurd rfl hne0
      | cons r0 rs2 =>
        dsimp only at h
        cases hmk : mkJudgmentResult nm r0 r0.content_type
            ("Judge agent failed, using fallback: " ++ msg)
            (scoresDict (r0 :: rs2)) (r0 :: rs2) with
        | error e2 => rw [hmk] at h; exact Except.noConfusion h
        | ok fj =>
          rw [hmk] at h
          dsimp only at h
          cases hrec : judgeAll jc (i + 1) rest with
          | error e2 => rw [hrec] at h; exact Except.noConfusion h
          | ok js2 =>
            rw [hrec] at h
            cases h
            simpa using ih hner (i + 1) js2 hrec

/-- The data-model invariant of `JudgmentResult` stated in the spec:
the selected content matches the selected type and is one of the
candidates. -/
def JudgmentInv (j : JudgmentResult) : Prop :=
  j.selected_content.content_type = j.selected_type ∧
    j.selected_content ∈ j.all_content

theorem judgeAll_inv (jc : Nat → JudgeCallOutcome)
    (entries : List (String × List ContentResult))
    (hjc : ∀ i j, jc i = .returns j → JudgmentInv j) :
    ∀ (i : Nat) (js : List JudgmentResult), judgeAll jc i entries = .ok js →
      ∀ j ∈ js, JudgmentInv j := by
  induction entries with
  | nil =>
    intro i js h
    unfold judgeAll at h
    cases h
    intro j hj
    exact absurd hj (List.not_mem_nil j)
  | cons e rest ih =>
    intro i js h
    obtain ⟨nm, rs⟩ := e
    unfold judgeAll at h
    cases hout : jc i with
    | returns j0 =>
      rw [hout] at h
      dsimp only at h
      cases hrec : judgeAll jc (i + 1) rest with
      | error e2 => rw [hrec] at h; exact Except.noConfusion h
      | ok js2 =>
        rw [hrec] at h
        cases h
        intro j hj
        rcases List.mem_cons.mp hj with rfl | hj
        · exact hjc i j hout
        · exact ih (i + 1) js2 hrec j hj
    | raises msg =>
      rw [hout] at h
      dsimp only at h
      cases rs with
      | nil =>
        intro j hj
        exact ih (i + 1) js h j hj
      | cons r0 rs2 =>
        dsimp only at h
        cases hmk : mkJudgmentResult nm r0 r0.content_type
            ("Judge agent failed, using fallback: " ++ msg)
            (scoresDict (r0 :: rs2)) (r0 :: rs2) with
        | error e2 => rw [hmk] at h; exact Except.noConfusion h
        | ok fj =>
          rw [hmk] at h
          dsimp only at h
          cases hrec : judgeAll jc (i + 1) rest with
          | error e2 => rw [hrec] at h; exact Except.noConfusion h
          | ok js2 =>
            rw [hrec] at h
            cases h
            intro j hj
            rcases List.mem_cons.mp hj with rfl | hj
            · obtain ⟨hj2, h2, h1⟩ := mkJudgmentResult_ok_inv _ _ _ _ _ _ _ hmk
              subst hj2
              exact ⟨h2, List.mem_cons_self _ _⟩
            · exact ih (i + 1) js2 hrec j hj

theorem judgeAll_total (jc : Nat → JudgeCallOutcome)
    (entries : List (String × List ContentResult))
    (hok : ∀ e ∈ entries, ∀ r ∈ e.2, r.typeOk) :
    ∀ (i : Nat), ∃ js, judgeAll jc i entries = .ok js := by
  induction entries with
  | nil => intro i; exact ⟨[], rfl⟩
  | cons e rest ih =>
    intro i
    obtain ⟨nm, rs⟩ := e
    have hokr : ∀ e ∈ rest, ∀ r ∈ e.2, r.typeOk :=
      fun e he => hok e (List.mem_cons_of_mem _ he)
    obtain ⟨js2, hrec⟩ := ih hokr (i + 1)
    unfold judgeAll
    cases hout : jc i with
    | returns j0 =>
      dsimp only
      rw [hrec]
      exact ⟨j0 :: js2, rfl⟩
    | raises msg =>
      dsimp only
      cases rs with
      | nil => exact ⟨js2, hrec⟩
      | cons r0 rs2 =>
        dsimp only
        have h0 : r0.typeOk :=
          hok (nm, r0 :: rs2) (List.mem_cons_self _ _) r0 (List.mem_cons_self _ _)
        rw [mkJudgmentResult_eq_ok _ _ _ _ _ _ h0 rfl]
        dsimp only
        rw [hrec]
        exact ⟨_ :: js2, rfl⟩

theorem process_all_pois_values (t : Int) (envs : Nat → ExecEnv) (pois : List POI)
    (P : List ContentResult → Prop)
    (hstep : ∀ n poi, P (ParallelExecutor.process_poi t (envs n) poi)) :
    ∀ e ∈ ParallelExecutor.process_all_pois t envs pois, P e.2 :=
  processAllFrom_values t envs P hstep pois 0 []
    (fun e he => absurd he (List.not_mem_nil e))

theorem entriesTotal_three (entries : List (String × List ContentResult))
    (h : ∀ e ∈ entries, e.2.length = 3) : entriesTotal entries = 3 * entries.length := by
  induction entries with
  | nil => rfl
  | cons e rest ih =>
    have h0 : e.2.length = 3 := h e (List.mem_cons_self _ _)
    have hr : ∀ e2 ∈ rest, e2.2.length = 3 := fun e2 he2 => h e2 (List.mem_cons_of_mem _ he2)
    simp only [entriesTotal, List.map_cons, List.sum_cons, List.length_cons] at *
    rw [h0, ih hr]
    ring

theorem process_all_pois_length_le (t : Int) (envs : Nat → ExecEnv) (pois : List POI) :
    (ParallelExecutor.process_all_pois t envs pois).length ≤ pois.length := by
  rw [process_all_pois_length]
  calc (pois.map POI.name).dedup.length ≤ (pois.map POI.name).length :=
        (List.dedup_sublist _).length_le
    _ = pois.length := List.length_map _ _

theorem run_default_none (t : Int) (env : PipelineEnv) (pois : List POI)
    (hlen : 10 < pois.length) :
    ContentPipeline.run t env defaultQueueManager pois = none := by
  cases pois with
  | nil => simp at hlen
  | cons p rest =>
    unfold ContentPipeline.run
    rw [if_neg (by simp)]
    rw [putAllPois_none (p :: rest) defaultQueueManager (by simp [defaultQueueManager])
      (by simpa [defaultQueueManager] using hlen)]

theorem run_default_some (t : Int) (env : PipelineEnv) (pois : List POI)
    (hlen : pois.length ≤ 10) :
    ∃ res, ContentPipeline.run t env defaultQueueManager pois = some res := by
  cases hpois : pois with
  | nil => exact ⟨.ok ([], defaultQueueManager), rfl⟩
  | cons p rest =>
    subst hpois
    unfold ContentPipeline.run
    rw [if_neg (by simp)]
    rw [putAllPois_some (p :: rest) defaultQueueManager (by
      simp only [defaultQueueManager, List.length_nil, Nat.zero_add]
      exact hlen)]
    dsimp only
    have hvals : ∀ e ∈ ParallelExecutor.process_all_pois t env.execEnvs (p :: rest),
        e.2.length = 3 :=
      process_all_pois_values t env.execEnvs (p :: rest) (fun l => l.length = 3)
        (fun n poi => process_poi_length t (env.execEnvs n) poi)
    have hcount : entriesTotal (ParallelExecutor.process_all_pois t env.execEnvs (p :: rest)) =
        3 * (ParallelExecutor.process_all_pois t env.execEnvs (p :: rest)).length :=
      entriesTotal_three _ hvals
    have hel : (ParallelExecutor.process_all_pois t env.execEnvs (p :: rest)).length ≤ 10 :=
      le_trans (process_all_pois_length_le t env.execEnvs (p :: rest)) hlen
    rw [putAllResults_some _ _ (by
      simp only [defaultQueueManager, List.length_nil]
      rw [hcount]
      omega)]
    dsimp only
    cases hj : judgeAll env.judgeCalls 0
        (ParallelExecutor.process_all_pois t env.execEnvs (p :: rest)) with
    | error e => exact ⟨.error e, rfl⟩
    | ok js =>
      have hjl : js.length ≤ 10 :=
        le_trans (judgeAll_ok_length_le env.judgeCalls _ 0 js hj) hel
      dsimp only
      rw [putAllJudgments_some js _ (by
        simp only [defaultQueueManager, List.length_nil, Nat.zero_add]
        exact hjl)]
      exact ⟨_, rfl⟩

/-! ## Claim C9 -/

/-- C9: with a default `QueueManager` and no concurrent consumer,
`ContentPipeline.run` terminates (returns or raises) exactly when the POI
count fits the poi queue capacity 10: step 1 enqueues every POI with a
blocking, timeout-free `put` before anything dequeues, so the put of the
11th POI blocks forever.  (With the default sizes, `len(pois) ≤ 10` also
implies the results-queue precondition `3·len ≤ 30` and the judgment
precondition, so the bound is exact.) -/
theorem C9_run_terminates_iff_fits (t : Int) (env : PipelineEnv) (pois : List POI) :
    (ContentPipeline.run t env defaultQueueManager pois).isSome = true ↔
      pois.length ≤ 10 := by
  constructor
  · intro h
    by_contra hlen
    rw [run_default_none t env pois (by omega)] at h
    exact absurd h (by decide)
  · intro hlen
    obtain ⟨res, hres⟩ := run_default_some t env pois hlen
    rw [hres]
    rfl

/-! ## Claims C10 and C8 -/

/-- C10: the pipeline correlates results by `poi.name` alone: (i) after
processing `xs ++ [p]`, the results map holds the later call's results
under `p.name` (overwriting any earlier POI with the same name); (ii) the
map has one entry per distinct name; (iii) a completed `run` returns one
judgment per distinct name — equal to one per input POI exactly when the
names are pairwise distinct. -/
theorem C10_correlation_by_name_only :
    (∀ (t : Int) (envs : Nat → ExecEnv) (xs : List POI) (p : POI),
      dictLookup p.name (ParallelExecutor.process_all_pois t envs (xs ++ [p])) =
        some (ParallelExecutor.process_poi t (envs xs.length) p)) ∧
    (∀ (t : Int) (envs : Nat → ExecEnv) (pois : List POI),
      (ParallelExecutor.process_all_pois t envs pois).length =
        (pois.map POI.name).dedup.length) ∧
    (∀ (t : Int) (env : PipelineEnv) (qm : QueueManager) (pois : List POI)
      (js : List JudgmentResult) (qm2 : QueueManager),
      ContentPipeline.run t env qm pois = some (.ok (js, qm2)) →
      js.length = (pois.map POI.name).dedup.length ∧
      ((pois.map POI.name).Nodup → js.length = pois.length)) := by
  refine ⟨fun t envs xs p => process_all_pois_last_overwrites t envs p xs,
    fun t envs pois => process_all_pois_length t envs pois, ?_⟩
  intro t env qm pois js qm2 h
  have hcount : js.length = (pois.map POI.name).dedup.length := by
    cases pois with
    | nil =>
      unfold ContentPipeline.run at h
      rw [if_pos (by simp)] at h
      cases h
      rfl
    | cons p rest =>
      unfold ContentPipeline.run at h
      rw [if_neg (by simp)] at h
      cases hput : putAllPois qm (p :: rest) with
      | none => rw [hput] at h; exact Option.noConfusion h
      | some qm1 =>
        rw [hput] at h
        dsimp only at h
        cases hres : putAllResults qm1
            (ParallelExecutor.process_all_pois t env.execEnvs (p :: rest)) with
        | none => rw [hres] at h; exact Option.noConfusion h
        | some qmr =>
          rw [hres] at h
          dsimp only at h
          cases hj : judgeAll env.judgeCalls 0
              (ParallelExecutor.process_all_pois t env.execEnvs (p :: rest)) with
          | error e =>
            rw [hj] at h
            dsimp only at h
            cases h
          | ok js2 =>
            rw [hj] at h
            dsimp only at h
            cases hpj : putAllJudgments qmr js2 with
            | none => rw [hpj] at h; exact Option.noConfusion h
            | some qm3 =>
              rw [hpj] at h
              dsimp only at h
              cases h
              have hne : ∀ e ∈ ParallelExecutor.process_all_pois t env.execEnvs (p :: rest),
                  e.2 ≠ [] :=
                process_all_pois_values t env.execEnvs (p :: rest) (fun l => l ≠ [])
                  (fun n poi => process_poi_ne_nil t (env.execEnvs n) poi)
              rw [judgeAll_ok_length_eq env.judgeCalls _ hne 0 _ hj]
              exact process_all_pois_length t env.execEnvs (p :: rest)
  refine ⟨hcount, fun hnd => ?_⟩
  rw [hcount, List.dedup_eq_self.mpr hnd, List.length_map]

/-- C8: every judgment this core produces satisfies the data-model
invariant `selected_content.content_type == selected_type` and
`selected_content ∈ all_content`: (i) every judgment returned by
`JudgeAgent.run` on any path, and (ii) every judgment in a completed
pipeline `run` — in particular the orchestrator's substituted fallback
judgments — provided the injected judge collaborator itself only returns
invariant-satisfying judgments (which `JudgeAgent.run` does, by (i)). -/
theorem C8_judgment_invariant :
    (∀ (env : JudgeEnv) (input : JudgeInput) (j : JudgmentResult),
      JudgeAgent.run env input = .ok j → JudgmentInv j) ∧
    (∀ (t : Int) (env : PipelineEnv) (qm : QueueManager) (pois : List POI)
      (js : List JudgmentResult) (qm2 : QueueManager),
      (∀ i j, env.judgeCalls i = .returns j → JudgmentInv j) →
      ContentPipeline.run t env qm pois = some (.ok (js, qm2)) →
      ∀ j ∈ js, JudgmentInv j) := by
  constructor
  · intro env input j h
    exact judge_run_inv env input j h
  · intro t env qm pois js qm2 hjc h
    cases pois with
    | nil =>
      unfold ContentPipeline.run at h
      rw [if_pos (by simp)] at h
      cases h
      intro j hj
      exact absurd hj (List.not_mem_nil j)
    | cons p rest =>
      unfold ContentPipeline.run at h
      rw [if_neg (by simp)] at h
      cases hput : putAllPois qm (p :: rest) with
      | none => rw [hput] at h; exact Option.noConfusion h
      | some qm1 =>
        rw [hput] at h
        dsimp only at h
        cases hres : putAllResults qm1
            (ParallelExecutor.process_all_pois t env.execEnvs (p :: rest)) with
        | none => rw [hres] at h; exact Option.noConfusion h
        | some qmr =>
          rw [hres] at h
          dsimp only at h
          cases hj : judgeAll env.judgeCalls 0
              (ParallelExecutor.process_all_pois t env.execEnvs (p :: rest)) with
          | error e =>
            rw [hj] at h
            dsimp only at h
            cases h
          | ok js2 =>
            rw [hj] at h
            dsimp only at h
            cases hpj : putAllJudgments qmr js2 with
            | none => rw [hpj] at h; exact Option.noConfusion h
            | some qm3 =>
              rw [hpj] at h
              dsimp only at h
              cases h
              exact judgeAll_inv env.judgeCalls _ hjc 0 _ hj

/-! ## Claim C3 -/

/-- A low-scoring youtube result (relevance 10). -/
def crLowY : ContentResult := ⟨"youtube", "Low video", "", 10, [], "youtube", "Eiffel Tower"⟩

/-- Generation env: youtube scores 10, history scores 90, spotify raises. -/
def wenvC3 : String → GenOutcome := fun a =>
  if a = "youtube" then .ok crLowY
  else if a = "history" then .ok crHist
  else .exn "down" "RuntimeError"

/-- Pipeline env for C3: every fan-out completes in time, every judge
call raises. -/
def envC3 : PipelineEnv := ⟨fun _ => ⟨wenvC3, .allDone⟩, fun _ => .raises "boom"⟩

/-- The spotify failure result produced by the worker in `wenvC3`. -/
def crFailS : ContentResult := workerFailResult "spotify" "down" "RuntimeError" poiEx

/-- The fallback judgment `ContentPipeline.run` actually builds for C3's
input: the FIRST result (youtube, score 10), not the priority-rule winner. -/
def jC3 : JudgmentResult :=
  ⟨"Eiffel Tower", crLowY, "youtube", "Judge agent failed, using fallback: boom",
    [("youtube", 10), ("spotify", 0), ("history", 90)], [crLowY, crFailS, crHist]⟩

/-- Queue state after the C3 run. -/
def qmC3 : QueueManager := ⟨⟨[poiEx], 10⟩, ⟨[crLowY, crFailS, crHist], 30⟩, ⟨[jC3], 10⟩⟩

/-- Queue state after the C3 queue-only run. -/
def qmC3q : QueueManager := ⟨⟨[], 10⟩, ⟨[crLowY, crFailS, crHist], 30⟩, ⟨[], 10⟩⟩

/-- C3 counterexample: with the judge call raising and content results
scoring youtube 10 / spotify 0 / history 90, `ContentPipeline.run` appends
a fallback judgment selecting "youtube" — the first result of the list —
although the Selection Stage's fallback rule (highest `relevance_score`,
ties history > youtube > spotify) would select "history"; and
`run_with_queue_only` appends no fallback judgment at all, returning an
empty list (the loop breaks).  This refutes the claim on both modes. -/
theorem C3_counterexample :
    ContentPipeline.run 30 envC3 defaultQueueManager [poiEx] =
      some (.ok ([jC3], qmC3)) ∧
    jC3.selected_type = "youtube" ∧
    crHist ∈ jC3.all_content ∧
    jC3.selected_content.relevance_score < crHist.relevance_score ∧
    ContentPipeline.run_with_queue_only 30 envC3 ⟨⟨[poiEx], 10⟩, ⟨[], 30⟩, ⟨[], 10⟩⟩ 1 =
      some ([], qmC3q) := by decide

/-- C3 (amended): when the Selection Stage call raises for a location,
`ContentPipeline.run` does not abort and substitutes a fallback judgment —
but built from the FIRST ContentResult of that location's list (index 0 of
the executor's output), not by the Selection Stage's highest-score /
priority rule; `run_with_queue_only` substitutes nothing: the exception
breaks the loop and the remaining locations are not processed. -/
theorem C3_amended_first_result_fallback :
    (∀ (t : Int) (env : PipelineEnv) (p : POI) (msg : String),
      env.judgeCalls 0 = .raises msg → (env.execEnvs 0).wellTyped →
      ∃ j qm2, ContentPipeline.run t env defaultQueueManager [p] =
          some (.ok ([j], qm2)) ∧
        (ParallelExecutor.process_poi t (env.execEnvs 0) p).head? =
          some j.selected_content ∧
        j.selected_type = j.selected_content.content_type ∧
        j.all_content = ParallelExecutor.process_poi t (env.execEnvs 0) p ∧
        j.poi_name = p.name ∧
        j.reasoning = "Judge agent failed, using fallback: " ++ msg) ∧
    (∀ (t : Int) (env : PipelineEnv) (p : POI) (rest : List POI) (msg : String),
      env.judgeCalls 0 = .raises msg →
      ∃ qm2, ContentPipeline.run_with_queue_only t env
          ⟨⟨p :: rest, 10⟩, ⟨[], 30⟩, ⟨[], 10⟩⟩ 1 = some ([], qm2)) := by
  constructor
  · intro t env p msg hjc hwt
    have h3 := process_poi_length t (env.execEnvs 0) p
    cases hres : ParallelExecutor.process_poi t (env.execEnvs 0) p with
    | nil => rw [hres] at h3; exact absurd h3 (by decide)
    | cons r0 tail =>
      cases tail with
      | nil =>
        rw [hres] at h3
        simp only [List.length_cons, List.length_nil] at h3
        omega
      | cons r1 tail2 =>
        cases tail2 with
        | nil =>
          rw [hres] at h3
          simp only [List.length_cons, List.length_nil] at h3
          omega
        | cons r2 tail3 =>
          cases tail3 with
          | cons r3 tail4 =>
            rw [hres] at h3
            simp only [List.length_cons] at h3
            omega
          | nil =>
            have hok : r0.typeOk :=
              (hres ▸ process_poi_typeOk t (env.execEnvs 0) p hwt) r0
                (List.mem_cons_self _ _)
            refine ⟨⟨p.name, r0, r0.content_type,
                "Judge agent failed, using fallback: " ++ msg,
                scoresDict [r0, r1, r2], [r0, r1, r2]⟩,
              ⟨⟨[p], 10⟩, ⟨[r0, r1, r2], 30⟩,
                ⟨[⟨p.name, r0, r0.content_type,
                  "Judge agent failed, using fallback: " ++ msg,
                  scoresDict [r0, r1, r2], [r0, r1, r2]⟩], 10⟩⟩,
              ?_, rfl, rfl, rfl, rfl, rfl⟩
            unfold ContentPipeline.run
            rw [if_neg (by simp)]
            have h1 : putAllPois defaultQueueManager [p] =
                some ⟨⟨[p], 10⟩, ⟨[], 30⟩, ⟨[], 10⟩⟩ := rfl
            rw [h1]
            dsimp only
            have h2 : ParallelExecutor.process_all_pois t env.execEnvs [p] =
                [(p.name, ParallelExecutor.process_poi t (env.execEnvs 0) p)] := rfl
            rw [h2, hres]
            have h4 : putAllResults ⟨⟨[p], 10⟩, ⟨[], 30⟩, ⟨[], 10⟩⟩
                [(p.name, [r0, r1, r2])] =
                some ⟨⟨[p], 10⟩, ⟨[r0, r1, r2], 30⟩, ⟨[], 10⟩⟩ := rfl
            rw [h4]
            dsimp only
            have h5 : judgeAll env.judgeCalls 0 [(p.name, [r0, r1, r2])] =
                .ok [⟨p.name, r0, r0.content_type,
                  "Judge agent failed, using fallback: " ++ msg,
                  scoresDict [r0, r1, r2], [r0, r1, r2]⟩] := by
              unfold judgeAll
              rw [hjc]
              dsimp only
              rw [mkJudgmentResult_eq_ok _ _ _ _ _ _ hok rfl]
              rfl
            rw [h5]
            dsimp only
            rfl
  · intro t env p rest msg hjc
    have h3 := process_poi_length t (env.execEnvs 0) p
    cases hres : ParallelExecutor.process_poi t (env.execEnvs 0) p with
    | nil => rw [hres] at h3; exact absurd h3 (by decide)
    | cons r0 tail =>
      refine ⟨⟨⟨rest, 10⟩, ⟨r0 :: tail, 30⟩, ⟨[], 10⟩⟩, ?_⟩
      have hg : QueueManager.get_poi ⟨⟨p :: rest, 10⟩, ⟨[], 30⟩, ⟨[], 10⟩⟩ true (some 5) =
          .ok (p, ⟨⟨rest, 10⟩, ⟨[], 30⟩, ⟨[], 10⟩⟩) := rfl
      have hlen : (r0 :: tail).length = 3 := by rw [← hres]; exact h3
      unfold ContentPipeline.run_with_queue_only runQueueOnlyGo
      rw [hg]
      dsimp only
      rw [hres]
      rw [putResultsList_some (r0 :: tail) ⟨⟨rest, 10⟩, ⟨[], 30⟩, ⟨[], 10⟩⟩
        (by
          show ([] : List ContentResult).length + (r0 :: tail).length ≤ 30
          rw [hlen]
          decide)]
      dsimp only
      rw [hjc]
      rfl

/-- Witness for the amended C3 at the concrete C3 environment. -/
theorem C3_amended_first_result_fallback_witness :
    (ContentPipeline.run 30 envC3 defaultQueueManager [poiEx]).isSome = true ∧
    (ContentPipeline.run_with_queue_only 30 envC3
      ⟨⟨[poiEx], 10⟩, ⟨[], 30⟩, ⟨[], 10⟩⟩ 1).isSome = true := by
  have hwt : (envC3.execEnvs 0).wellTyped := by
    intro a r h
    replace h : wenvC3 a = GenOutcome.ok r := h
    unfold wenvC3 at h
    by_cases h1 : a = "youtube"
    · rw [if_pos h1] at h
      cases h
      exact (by decide : crLowY.typeOk)
    · rw [if_neg h1] at h
      by_cases h2 : a = "history"
      · rw [if_pos h2] at h
        cases h
        exact (by decide : crHist.typeOk)
      · rw [if_neg h2] at h
        cases h
  constructor
  · obtain ⟨j, qm2, hrun, -⟩ :=
      C3_amended_first_result_fallback.1 30 envC3 poiEx "boom" rfl hwt
    rw [hrun]
    rfl
  · obtain ⟨qm2, hrun⟩ :=
      C3_amended_first_result_fallback.2 30 envC3 poiEx [] "boom" rfl
    rw [hrun]
    rfl

/-- A second POI with the same name as `poiEx`. -/
def poiEx2 : POI := ⟨"Eiffel Tower", 1, 1, "Another entry, same name", .cultural, 2⟩

/-- A fixed judgment returned by the injected judge in the C10 witness. -/
def jEx : JudgmentResult := ⟨"Eiffel Tower", crHist, "history", "chosen", [], [crHist]⟩

/-- Pipeline env for the C10 witness: every fan-out times out, every judge
call returns `jEx`. -/
def envDup : PipelineEnv := ⟨fun _ => ⟨wenvEx, .timeout []⟩, fun _ => .returns jEx⟩

/-- Queue state after running the duplicate-name C10 witness input. -/
def qmDup : QueueManager :=
  ⟨⟨[poiEx, poiEx2], 10⟩,
    ⟨[timeoutResult 30 "youtube" poiEx2, timeoutResult 30 "spotify" poiEx2,
      timeoutResult 30 "history" poiEx2], 30⟩,
    ⟨[jEx], 10⟩⟩

/-- Witness for C10 at two POIs sharing one name: the run yields a single
judgment. -/
theorem C10_correlation_by_name_only_witness :
    ([jEx] : List JudgmentResult).length =
      (([poiEx, poiEx2].map POI.name)).dedup.length :=
  (C10_correlation_by_name_only.2.2 30 envDup defaultQueueManager [poiEx, poiEx2]
    [jEx] qmDup (by decide)).1

/-- The judgment `JudgeAgent.run` produces on a singleton input. -/
def jSingle : JudgmentResult :=
  ⟨"Eiffel Tower", crHist, "history",
    "Only one content option was available. Selected history by default.",
    [("history", 90)], [crHist]⟩

/-- Witness for C8 at a concrete judge run. -/
theorem C8_judgment_invariant_witness : JudgmentInv jSingle :=
  C8_judgment_invariant.1 (.callFails "x") (.isList [.cr crHist]) jSingle (by decide)

/-! ## Claim C7 -/

/-- C7: for each bounded queue of the `QueueManager` (and with no
concurrent peer): a non-blocking `put` while the queue holds its capacity
raises Full; a non-blocking `get` on an empty queue raises Empty; and a
`put` followed by a `get` on an otherwise-empty queue returns the very
item that was put (field-for-field, as structure equality). -/
theorem C7_bounded_queue_contract (qmF qmE : QueueManager) (p : POI)
    (r : ContentResult) (j : JudgmentResult)
    (hFp : qmF.poi_queue.items.length = qmF.poi_queue.maxsize)
    (hFr : qmF.results_queue.items.length = qmF.results_queue.maxsize)
    (hFj : qmF.judgment_queue.items.length = qmF.judgment_queue.maxsize)
    (hEp : qmE.poi_queue.items = [])
    (hEr : qmE.results_queue.items = [])
    (hEj : qmE.judgment_queue.items = [])
    (hcp : 0 < qmE.poi_queue.maxsize)
    (hcr : 0 < qmE.results_queue.maxsize)
    (hcj : 0 < qmE.judgment_queue.maxsize) :
    qmF.put_poi p false none = .err .queueFull ∧
    qmF.put_result r false none = .err .queueFull ∧
    qmF.put_judgment j false none = .err .queueFull ∧
    qmE.get_poi false none = .err .queueEmpty ∧
    qmE.get_result false none = .err .queueEmpty ∧
    qmE.get_judgment false none = .err .queueEmpty ∧
    (∃ qm1 qm2, qmE.put_poi p true none = .ok qm1 ∧
      qm1.get_poi true none = .ok (p, qm2)) ∧
    (∃ qm1 qm2, qmE.put_result r true none = .ok qm1 ∧
      qm1.get_result true none = .ok (r, qm2)) ∧
    (∃ qm1 qm2, qmE.put_judgment j true none = .ok qm1 ∧
      qm1.get_judgment true none = .ok (j, qm2)) := by
  have hfullp : qmF.poi_queue.put p false none = .err .queueFull := by
    unfold BQueue.put
    rw [if_neg (by omega)]
    rfl
  have hfullr : qmF.results_queue.put r false none = .err .queueFull := by
    unfold BQueue.put
    rw [if_neg (by omega)]
    rfl
  have hfullj : qmF.judgment_queue.put j false none = .err .queueFull := by
    unfold BQueue.put
    rw [if_neg (by omega)]
    rfl
  have hempp : qmE.poi_queue.get false none = .err .queueEmpty := by
    unfold BQueue.get
    rw [hEp]
    rfl
  have hempr : qmE.results_queue.get false none = .err .queueEmpty := by
    unfold BQueue.get
    rw [hEr]
    rfl
  have hempj : qmE.judgment_queue.get false none = .err .queueEmpty := by
    unfold BQueue.get
    rw [hEj]
    rfl
  have hputp : qmE.poi_queue.put p true none =
      .ok ⟨[p], qmE.poi_queue.maxsize⟩ := by
    unfold BQueue.put
    rw [if_pos (by rw [hEp]; simpa using hcp), hEp]
    rfl
  have hputr : qmE.results_queue.put r true none =
      .ok ⟨[r], qmE.results_queue.maxsize⟩ := by
    unfold BQueue.put
    rw [if_pos (by rw [hEr]; simpa using hcr), hEr]
    rfl
  have hputj : qmE.judgment_queue.put j true none =
      .ok ⟨[j], qmE.judgment_queue.maxsize⟩ := by
    unfold BQueue.put
    rw [if_pos (by rw [hEj]; simpa using hcj), hEj]
    rfl
  refine ⟨?_, ?_, ?_, ?_, ?_, ?_, ?_, ?_, ?_⟩
  · unfold QueueManager.put_poi
    rw [hfullp]
  · unfold QueueManager.put_result
    rw [hfullr]
  · unfold QueueManager.put_judgment
    rw [hfullj]
  · unfold QueueManager.get_poi
    rw [hempp]
  · unfold QueueManager.get_result
    rw [hempr]
  · unfold QueueManager.get_judgment
    rw [hempj]
  · refine ⟨{ qmE with poi_queue := ⟨[p], qmE.poi_queue.maxsize⟩ },
      { qmE with poi_queue := ⟨[], qmE.poi_queue.maxsize⟩ }, ?_, ?_⟩
    · unfold QueueManager.put_poi
      rw [hputp]
    · unfold QueueManager.get_poi
      rfl
  · refine ⟨{ qmE with results_queue := ⟨[r], qmE.results_queue.maxsize⟩ },
      { qmE with results_queue := ⟨[], qmE.results_queue.maxsize⟩ }, ?_, ?_⟩
    · unfold QueueManager.put_result
      rw [hputr]
    · unfold QueueManager.get_result
      rfl
  · refine ⟨{ qmE with judgment_queue := ⟨[j], qmE.judgment_queue.maxsize⟩ },
      { qmE with judgment_queue := ⟨[], qmE.judgment_queue.maxsize⟩ }, ?_, ?_⟩
    · unfold QueueManager.put_judgment
      rw [hputj]
    · unfold QueueManager.get_judgment
      rfl

/-- A queue manager whose three queues are all at capacity. -/
def qmFullEx : QueueManager := ⟨⟨[poiEx], 1⟩, ⟨[crHist], 1⟩, ⟨[jEx], 1⟩⟩

/-- Witness for C7 at a full manager and the default (empty) manager. -/
theorem C7_bounded_queue_contract_witness :
    qmFullEx.put_poi poiEx2 false none = .err .queueFull ∧
    defaultQueueManager.get_poi false none = .err .queueEmpty :=
  ⟨(C7_bounded_queue_contract qmFullEx defaultQueueManager poiEx2 crLowY jEx
      rfl rfl rfl rfl rfl rfl (by decide) (by decide) (by decide)).1,
   (C7_bounded_queue_contract qmFullEx defaultQueueManager poiEx2 crLowY jEx
      rfl rfl rfl rfl rfl rfl (by decide) (by decide) (by decide)).2.2.2.1⟩

end TourGuide
